import Mathlib

/-!
Verification of the post-processing core of a Confluence-PDF-to-Markdown
pipeline: language classification of code fragments, per-language structural
reformatting, and the heuristic repair pass for YAML-shaped corruption.

The Python sources are shallowly embedded: strings become `List Char`
(`Str`), per-line regular expressions become explicit decidable scanners
translated pattern-by-pattern, `json.loads`/`json.dumps` become a fuel-based
recursive-descent parser and a deterministic printer over an explicit JSON
value type, and every embedded function is executable and structurally
recursive so concrete runs reduce by `decide`/`rfl`.

Scope notes on the embedding of Python semantics, recorded once here:
character classes of the form `[a-zA-Z]`, `\w` and `\s` are modelled over
their ASCII meaning (the repository processes ASCII configuration text);
`str.strip`/`str.split` use Python's ASCII whitespace set; `re.match` anchors
at position 0 even under `re.MULTILINE`; greedy repetition over pairwise
disjoint character classes needs no backtracking and is translated as
maximal munch.
-/

set_option maxHeartbeats 1000000

/-- Python strings are embedded as lists of characters. -/
abbrev Str := List Char

/-- Python's whitespace set for `str.strip` and the regex class `\s`
(ASCII: space, tab, newline, carriage return, vertical tab, form feed). -/
def pySpace (c : Char) : Bool :=
  c == ' ' || c == '\t' || c == '\n' || c == '\r' || c == '\x0b' || c == '\x0c'

/-- `strStarts p s` is Python's `s.startswith(p)`. -/
def strStarts : Str → Str → Bool
  | [], _ => true
  | _ :: _, [] => false
  | p :: ps, c :: cs => p == c && strStarts ps cs

/-- `strEnds p s` is Python's `s.endswith(p)`. -/
def strEnds (p s : Str) : Bool :=
  strStarts p.reverse s.reverse

/-- Python's `s.lstrip()`. -/
def pyLStrip (s : Str) : Str := s.dropWhile pySpace

/-- Python's `s.rstrip()`. -/
def pyRStrip (s : Str) : Str := (s.reverse.dropWhile pySpace).reverse

/-- Python's `s.strip()`. -/
def pyStrip (s : Str) : Str := pyRStrip (pyLStrip s)

/-- Python's `s.split("\n")`: always returns at least one piece. -/
def splitLines : Str → List Str
  | [] => [[]]
  | c :: t =>
    match splitLines t with
    | [] => [[]]
    | h :: r => if c = '\n' then [] :: h :: r else (c :: h) :: r

/-- Python's `"\n".join(lines)`. -/
def joinLines : List Str → Str
  | [] => []
  | [l] => l
  | l :: ls => l ++ '\n' :: joinLines ls

/-- Python's `sub in s` substring test. -/
def hasSub (pat : Str) : Str → Bool
  | [] => strStarts pat []
  | c :: t => strStarts pat (c :: t) || hasSub pat t

/-- ASCII lowercasing of a string, Python's `s.lower()` on the ASCII range. -/
def lowerStr (s : Str) : Str := s.map Char.toLower

/-- Case-insensitive substring test (used for `re.IGNORECASE` searches). -/
def hasSubCI (pat : Str) (s : Str) : Bool :=
  hasSub (lowerStr pat) (lowerStr s)

/-- A run of `n` spaces. -/
def spaces (n : Nat) : Str := List.replicate n ' '

/-- Accumulator for `pyWords`. -/
def pyWordsGo (cur : Str) : Str → List Str
  | [] => if cur == [] then [] else [cur.reverse]
  | c :: t =>
    if pySpace c then
      if cur == [] then pyWordsGo [] t else cur.reverse :: pyWordsGo [] t
    else pyWordsGo (c :: cur) t

/-- Python's argumentless `s.split()`: whitespace-separated words. -/
def pyWords (s : Str) : List Str := pyWordsGo [] s

/-- Regex class `[a-zA-Z_]`. -/
def alphaUnder (c : Char) : Bool := c.isAlpha || c == '_'

/-- Regex class `[a-zA-Z0-9_]`, also `\w` over ASCII. -/
def identChar (c : Char) : Bool := c.isAlpha || c.isDigit || c == '_'

/-- Regex class of identifier chars extended with dot, slash and dash,
used for dotted/slashed YAML property names. -/
def identDotChar (c : Char) : Bool :=
  c.isAlpha || c.isDigit || c == '_' || c == '.' || c == '/' || c == '-'

/-! ## MarkerOutputCleaner (marker_cleaner.py)

`_fix_yaml_line` tries six regex patterns in priority order; each is
translated as an explicit matcher returning the captured groups. -/

/-- Pattern `^( )-\s+(.*)$`: one space, a dash, at least one whitespace,
rest of line (after the maximal whitespace run). -/
def matchListItem : Str → Option Str
  | a :: b :: c :: t =>
    if (a == ' ') && (b == '-') && pySpace c then some ((c :: t).dropWhile pySpace)
    else none
  | _ => none

/-- Pattern: one space, then an identifier over the extended class (dots,
slashes and dashes allowed), optional whitespace, a colon, anything.
Returns group 2: everything after the single leading space. -/
def singleSpaceMatch : Str → Option Str
  | a :: c :: t =>
    if (a == ' ') && alphaUnder c then
      match (t.dropWhile identDotChar).dropWhile pySpace with
      | d :: _ => if d == ':' then some (c :: t) else none
      | [] => none
    else none
  | _ => none

/-- Python's `rest_of_line.split(":")[0].strip()`. -/
def propName (rest : Str) : Str :=
  pyStrip (rest.takeWhile (fun c => c != ':'))

/-- The PropertyIndentTable of `_fix_yaml_line`: target leading-space count
for a property name found after a single corrupted leading space. -/
def propIndent (p : Str) : Nat :=
  if p == ("name").data || p == ("namespace").data then 2
  else if p == ("maxUnhealthy").data || p == ("nodeStartupTimeout").data
      || p == ("selector").data || p == ("unhealthyConditions").data then 2
  else if p == ("matchLabels").data then 4
  else if strStarts ("machine.openshift.io/").data p then 6
  else if p == ("timeout").data || p == ("type").data then 4
  else 2

/-- Pattern `^(\s*)-\s+([a-zA-Z_][a-zA-Z0-9_]*)\s*:\s*(.*)$`: returns
(leading whitespace, property name, property value). -/
def yamlPropMatch (l : Str) : Option (Str × Str × Str) :=
  match l.dropWhile pySpace with
  | b :: c :: t =>
    if (b == '-') && pySpace c then
      match (c :: t).dropWhile pySpace with
      | d :: t2 =>
        if alphaUnder d then
          match (t2.dropWhile identChar).dropWhile pySpace with
          | e :: t3 =>
            if e == ':' then
              some (l.takeWhile pySpace, d :: t2.takeWhile identChar,
                t3.dropWhile pySpace)
            else none
          | [] => none
        else none
      | [] => none
    else none
  | _ => none

/-- Pattern `^(\s*)-\s+-\s+(.*)$` (double-dash corruption): returns
(leading whitespace, rest of line). -/
def doubleDashMatch (l : Str) : Option (Str × Str) :=
  match l.dropWhile pySpace with
  | b :: c :: t =>
    if (b == '-') && pySpace c then
      match (c :: t).dropWhile pySpace with
      | b2 :: c2 :: t2 =>
        if (b2 == '-') && pySpace c2 then
          some (l.takeWhile pySpace, (c2 :: t2).dropWhile pySpace)
        else none
      | _ => none
    else none
  | _ => none

/-- Pattern `^( )(timeout|type):\s*(.*)$`: returns (property name, value). -/
def listContMatch : Str → Option (Str × Str)
  | a :: t =>
    if a == ' ' then
      if strStarts ("timeout:").data t then
        some (("timeout").data, (t.drop 8).dropWhile pySpace)
      else if strStarts ("type:").data t then
        some (("type").data, (t.drop 5).dropWhile pySpace)
      else none
    else none
  | [] => none

/-- Pattern `^(\s*)-\s+([^:]+)$`: a dash followed by a colon-free value.
When everything after the dash is whitespace, backtracking leaves exactly
the final whitespace character in group 2. Returns (leading, value). -/
def contMatch (l : Str) : Option (Str × Str) :=
  match l.dropWhile pySpace with
  | b :: c :: t =>
    if (b == '-') && pySpace c then
      match (c :: t).dropWhile pySpace with
      | [] =>
        match t with
        | [] => none
        | _ :: _ =>
          some (l.takeWhile pySpace, [(c :: t).getLast (List.cons_ne_nil c t)])
      | v :: vs =>
        if (v :: vs).any (fun x => x == ':') then none
        else some (l.takeWhile pySpace, v :: vs)
    else none
  | _ => none

/-- Python's tuple test
`value.strip().startswith(("-", "*", "status:", "timeout:", "type:"))`. -/
def contValueLooksListy (v : Str) : Bool :=
  strStarts ("-").data (pyStrip v) || strStarts ("*").data (pyStrip v)
    || strStarts ("status:").data (pyStrip v)
    || strStarts ("timeout:").data (pyStrip v)
    || strStarts ("type:").data (pyStrip v)

/-- `MarkerOutputCleaner._fix_yaml_line`: the per-line YAML repair, trying
the six patterns in the source's priority order, first match wins. -/
def fixYamlLine (line : Str) : Str :=
  if pyStrip line == [] then line
  else
    match matchListItem line with
    | some rest => ("  - ").data ++ rest
    | none =>
      match singleSpaceMatch line with
      | some rest => spaces (propIndent (propName rest)) ++ rest
      | none =>
        match yamlPropMatch line with
        | some (lead, nm, v) => lead ++ ("  ").data ++ nm ++ (": ").data ++ v
        | none =>
          match doubleDashMatch line with
          | some (lead, rest) => lead ++ ("  - ").data ++ rest
          | none =>
            match listContMatch line with
            | some (nm, v) => ("    ").data ++ nm ++ (": ").data ++ v
            | none =>
              match contMatch line with
              | some (lead, v) =>
                if contValueLooksListy v then line
                else lead ++ ("    ").data ++ v
              | none => line

/-- Pattern `^( )(machine\.openshift\.io/.*)$` from `_is_yaml_like_line`. -/
def machineLineMatch : Str → Bool
  | a :: t => a == ' ' && strStarts ("machine.openshift.io/").data t
  | [] => false

/-- `MarkerOutputCleaner._is_yaml_like_line`. -/
def isYamlLikeLine (line : Str) : Bool :=
  if pyStrip line == [] then false
  else
    (singleSpaceMatch line).isSome || machineLineMatch line
      || (listContMatch line).isSome

/-- The per-line action of `clean_raw_yaml_indentation`. -/
def rawFix (line : Str) : Str :=
  if isYamlLikeLine line then fixYamlLine line else line

/-- `MarkerOutputCleaner.clean_raw_yaml_indentation`. -/
def cleanRawYaml (content : Str) : Str :=
  joinLines ((splitLines content).map rawFix)

/-- Test for a ```` ```yaml ````/```` ```yml ```` fence opener. -/
def isYamlFenceOpen (l : Str) : Bool :=
  strStarts ("```yaml").data (pyStrip l) || strStarts ("```yml").data (pyStrip l)

/-- The line loop of `clean_yaml_structure`: `inY` is `in_yaml_block`,
`buf` is the accumulated `yaml_block_lines`. -/
def cysGo : Bool → List Str → List Str → List Str
  | _, buf, [] => buf.map fixYamlLine
  | inY, buf, l :: ls =>
    if isYamlFenceOpen l then l :: cysGo true buf ls
    else if pyStrip l == ("```").data && inY then
      (buf.map fixYamlLine) ++ l :: cysGo false [] ls
    else if inY then cysGo inY (buf ++ [l]) ls
    else l :: cysGo inY buf ls

/-- `MarkerOutputCleaner.clean_yaml_structure`. -/
def cleanYamlStructure (content : Str) : Str :=
  if content == [] then content
  else joinLines (cysGo false [] (splitLines content))

/-- `MarkerOutputCleaner.clean_marker_output`, the repair pass over a whole
document (`repair_document` in the specification). -/
def cleanMarkerOutput (content : Str) : Str :=
  if content == [] then content
  else cleanRawYaml (cleanYamlStructure content)

/-- A line whose stripped form does not begin with a dash; on such lines
none of the dash-driven repair patterns can fire. -/
def noDashLine (l : Str) : Bool :=
  match l.dropWhile pySpace with
  | c :: _ => !(c == '-')
  | [] => true

/-! ## CodeFormatter.detect_language (code_formatter.py)

Each scoring regex is applied with `re.search` under
`re.MULTILINE | re.IGNORECASE`; the translation enumerates candidate match
positions explicitly: `allSuffixes` for unanchored searches,
`lineStartSuffixes` for `^`-anchored ones, `suffixesWithPrev` when a word
boundary must inspect the preceding character. -/

/-- Suffixes of `s` that begin right after a newline. -/
def lineStartsAfter : Str → List Str
  | [] => []
  | c :: t => if c = '\n' then t :: lineStartsAfter t else lineStartsAfter t

/-- All positions where `re.MULTILINE`'s `^` can anchor. -/
def lineStartSuffixes (s : Str) : List Str := s :: lineStartsAfter s

/-- Every suffix of `s`, the candidate positions of an unanchored search. -/
def allSuffixes : Str → List Str
  | [] => [[]]
  | c :: t => (c :: t) :: allSuffixes t

/-- Helper for `suffixesWithPrev`. -/
def suffixesWithPrevGo (p : Option Char) : Str → List (Option Char × Str)
  | [] => [(p, [])]
  | c :: t => (p, c :: t) :: suffixesWithPrevGo (some c) t

/-- Every suffix paired with the character just before it (none at start). -/
def suffixesWithPrev (s : Str) : List (Option Char × Str) :=
  suffixesWithPrevGo none s

/-- Case-insensitive `startswith`, for `re.IGNORECASE` literals. -/
def ciStarts : Str → Str → Bool
  | [], _ => true
  | _ :: _, [] => false
  | p :: ps, c :: cs => (p.toLower == c.toLower) && ciStarts ps cs

/-- Word boundary `\b` immediately before a word character. -/
def boundaryBefore : Option Char → Bool
  | none => true
  | some c => !identChar c

/-- A whole word `kw` at the head of `t` with `\b` on both sides
(case-insensitive). -/
def wordAt (kw : Str) (p : Option Char) (t : Str) : Bool :=
  boundaryBefore p && ciStarts kw t
    && (match t.drop kw.length with
        | [] => true
        | c :: _ => !identChar c)

/-- Whitespace up to an end of line: the tail of `\s*$` under
`re.MULTILINE`, where `$` may sit before any newline inside the run. -/
def wsThenLineEnd (t : Str) : Bool :=
  (t.takeWhile pySpace).contains '\n' || t.dropWhile pySpace == []

/-- json scoring pattern 1: a line starting (after whitespace) with a brace
or bracket. -/
def jsonPat1 (s : Str) : Bool :=
  (lineStartSuffixes s).any fun t =>
    match t.dropWhile pySpace with
    | c :: _ => c == '\x7b' || c == '['
    | [] => false

/-- json scoring pattern 2: a quote, a colon, whitespace, a quote. -/
def jsonPat2 (s : Str) : Bool :=
  (allSuffixes s).any fun t =>
    match t with
    | q :: ':' :: r =>
      (q == '"' || q == '\'')
        && (match r.dropWhile pySpace with
            | q2 :: _ => q2 == '"' || q2 == '\''
            | [] => false)
    | _ => false

/-- json scoring pattern 3: a closing brace, optionally a comma, then an
end of line. -/
def jsonPat3 (s : Str) : Bool :=
  (allSuffixes s).any fun t =>
    match t with
    | '\x7d' :: r =>
      wsThenLineEnd r
        || (match r.dropWhile pySpace with
            | ',' :: r2 => wsThenLineEnd r2
            | _ => false)
    | _ => false

/-- yaml scoring pattern 1: a line starting with `identifier :`. -/
def yamlPat1 (s : Str) : Bool :=
  (lineStartSuffixes s).any fun t =>
    match t.dropWhile pySpace with
    | c :: r =>
      alphaUnder c
        && (match (r.dropWhile identChar).dropWhile pySpace with
            | ':' :: _ => true
            | _ => false)
    | [] => false

/-- yaml scoring pattern 2: a line starting with a dash and whitespace. -/
def yamlPat2 (s : Str) : Bool :=
  (lineStartSuffixes s).any fun t =>
    match t.dropWhile pySpace with
    | '-' :: c :: _ => pySpace c
    | _ => false

/-- yaml scoring pattern 3: a colon then a block-scalar marker. -/
def yamlPat3 (s : Str) : Bool :=
  (allSuffixes s).any fun t =>
    match t with
    | ':' :: r =>
      (match r.dropWhile pySpace with
       | c :: _ => c == '|' || c == '>'
       | [] => false)
    | _ => false

/-- The bash keyword list of scoring pattern 3. -/
def bashKeywords : List Str :=
  [("echo").data, ("if").data, ("then").data, ("else").data, ("elif").data,
   ("fi").data, ("for").data, ("while").data, ("do").data, ("done").data,
   ("case").data, ("esac").data, ("function").data]

/-- bash scoring pattern 1: a shell shebang substring. -/
def bashPat1 (s : Str) : Bool :=
  (allSuffixes s).any fun t =>
    ciStarts ("#!/bin/bash").data t || ciStarts ("#!/bin/sh").data t

/-- bash scoring pattern 2: a dollar variable reference. -/
def bashPat2 (s : Str) : Bool :=
  (allSuffixes s).any fun t =>
    match t with
    | '$' :: '\x7b' :: c :: _ => alphaUnder c
    | '$' :: c :: _ => alphaUnder c
    | _ => false

/-- bash scoring pattern 3: a whole bash keyword. -/
def bashPat3 (s : Str) : Bool :=
  (suffixesWithPrev s).any fun pt =>
    bashKeywords.any fun kw => wordAt kw pt.1 pt.2

/-- bash scoring pattern 4: a line starting with `identifier =`. -/
def bashPat4 (s : Str) : Bool :=
  (lineStartSuffixes s).any fun t =>
    match t.dropWhile pySpace with
    | c :: r =>
      alphaUnder c
        && (match (r.dropWhile identChar).dropWhile pySpace with
            | '=' :: _ => true
            | _ => false)
    | [] => false

/-- bash scoring pattern 5: a double-bracket conditional on one line. -/
def bashPat5 (s : Str) : Bool :=
  (allSuffixes s).any fun t =>
    match t with
    | '[' :: '[' :: r => hasSub ("]]").data (r.takeWhile (fun c => c != '\n'))
    | _ => false

/-- bash scoring pattern 6 (shared with python pattern 6): a line-start
comment hash not followed by a brace or bracket. -/
def bashPat6 (s : Str) : Bool :=
  (lineStartSuffixes s).any fun t =>
    match t.dropWhile pySpace with
    | '#' :: r =>
      (match r.dropWhile pySpace with
       | c :: _ => !(c == '\x7b' || c == '[')
       | [] => true)
    | _ => false

/-- The go-specific keyword list of scoring pattern 5. -/
def goKeywords : List Str :=
  [("defer").data, ("chan").data, ("select").data, ("interface").data,
   ("struct").data, ("range").data, ("map").data]

/-- go scoring pattern 1: a package declaration. -/
def goPat1 (s : Str) : Bool :=
  (suffixesWithPrev s).any fun pt =>
    boundaryBefore pt.1 && ciStarts ("package").data pt.2
      && (match pt.2.drop 7 with
          | c :: r =>
            pySpace c
              && (match r.dropWhile pySpace with
                  | d :: _ => identChar d
                  | [] => false)
          | [] => false)

/-- go scoring pattern 2: a function declaration. -/
def goPat2 (s : Str) : Bool :=
  (suffixesWithPrev s).any fun pt =>
    boundaryBefore pt.1 && ciStarts ("func").data pt.2
      && (match pt.2.drop 4 with
          | c :: r =>
            pySpace c
              && (match ((r.dropWhile pySpace).dropWhile identChar).dropWhile pySpace with
                  | '(' :: _ => true
                  | _ => false)
          | [] => false)

/-- go scoring pattern 3: an import statement with parenthesis. -/
def goPat3 (s : Str) : Bool :=
  (suffixesWithPrev s).any fun pt =>
    boundaryBefore pt.1 && ciStarts ("import").data pt.2
      && (match (pt.2.drop 6).dropWhile pySpace with
          | '(' :: _ => true
          | _ => false)

/-- go scoring pattern 4: a variable declaration `var name type`. -/
def goPat4 (s : Str) : Bool :=
  (suffixesWithPrev s).any fun pt =>
    boundaryBefore pt.1 && ciStarts ("var").data pt.2
      && (match pt.2.drop 3 with
          | c :: r =>
            pySpace c
              && (match r.dropWhile pySpace with
                  | d :: r2 =>
                    identChar d
                      && (match (r2.dropWhile identChar) with
                          | e :: r3 =>
                            pySpace e
                              && (match r3.dropWhile pySpace with
                                  | f :: _ => identChar f
                                  | [] => false)
                          | [] => false)
                  | [] => false)
          | [] => false)

/-- go scoring pattern 5: a go-specific whole keyword. -/
def goPat5 (s : Str) : Bool :=
  (suffixesWithPrev s).any fun pt =>
    goKeywords.any fun kw => wordAt kw pt.1 pt.2

/-- go scoring pattern 6: a short variable declaration token. -/
def goPat6 (s : Str) : Bool := hasSub (":=").data s

/-- go scoring pattern 7: a line-start double-slash comment. -/
def goPat7 (s : Str) : Bool :=
  (lineStartSuffixes s).any fun t =>
    match t.dropWhile pySpace with
    | '/' :: '/' :: _ => true
    | _ => false

/-- python scoring pattern 1: a line-start function definition. -/
def pyPat1 (s : Str) : Bool :=
  (lineStartSuffixes s).any fun t =>
    ciStarts ("def").data t
      && (match t.drop 3 with
          | c :: r =>
            pySpace c
              && (match r.dropWhile pySpace with
                  | d :: r2 =>
                    identChar d
                      && (match (r2.dropWhile identChar).dropWhile pySpace with
                          | '(' :: _ => true
                          | _ => false)
                  | [] => false)
          | [] => false)

/-- python scoring pattern 2: a line-start class definition. -/
def pyPat2 (s : Str) : Bool :=
  (lineStartSuffixes s).any fun t =>
    ciStarts ("class").data t
      && (match t.drop 5 with
          | c :: r =>
            pySpace c
              && (match r.dropWhile pySpace with
                  | d :: _ => identChar d
                  | [] => false)
          | [] => false)

/-- python scoring pattern 3: an import statement. -/
def pyPat3 (s : Str) : Bool :=
  (suffixesWithPrev s).any fun pt =>
    boundaryBefore pt.1 && ciStarts ("import").data pt.2
      && (match pt.2.drop 6 with
          | c :: r =>
            pySpace c
              && (match r.dropWhile pySpace with
                  | d :: _ => identChar d
                  | [] => false)
          | [] => false)

/-- python scoring pattern 4: a from-import statement. -/
def pyPat4 (s : Str) : Bool :=
  (suffixesWithPrev s).any fun pt =>
    boundaryBefore pt.1 && ciStarts ("from").data pt.2
      && (match pt.2.drop 4 with
          | c :: r =>
            pySpace c
              && (match r.dropWhile pySpace with
                  | d :: r2 =>
                    identChar d
                      && (match r2.dropWhile identChar with
                          | e :: r3 =>
                            pySpace e && ciStarts ("import").data (r3.dropWhile pySpace)
                          | [] => false)
                  | [] => false)
          | [] => false)

/-- The python builtin list of scoring pattern 5. -/
def pyBuiltins : List Str :=
  [("print").data, ("len").data, ("range").data, ("str").data, ("int").data,
   ("float").data, ("list").data, ("dict").data, ("tuple").data, ("set").data]

/-- python scoring pattern 5: a builtin name followed by a parenthesis. -/
def pyPat5 (s : Str) : Bool :=
  (suffixesWithPrev s).any fun pt =>
    boundaryBefore pt.1
      && pyBuiltins.any fun kw =>
        ciStarts kw pt.2
          && (match (pt.2.drop kw.length).dropWhile pySpace with
              | '(' :: _ => true
              | _ => false)

/-- python scoring pattern 7: a colon at an end of line. -/
def pyPat7 (s : Str) : Bool :=
  (allSuffixes s).any fun t =>
    match t with
    | ':' :: r => wsThenLineEnd r
    | _ => false

/-- Bool to score increment. -/
def b2n (b : Bool) : Nat := if b then 1 else 0

/-- Number of matching json signature patterns. -/
def scoreJson (s : Str) : Nat :=
  b2n (jsonPat1 s) + b2n (jsonPat2 s) + b2n (jsonPat3 s)

/-- Number of matching yaml signature patterns. -/
def scoreYaml (s : Str) : Nat :=
  b2n (yamlPat1 s) + b2n (yamlPat2 s) + b2n (yamlPat3 s)

/-- Number of matching bash signature patterns. -/
def scoreBash (s : Str) : Nat :=
  b2n (bashPat1 s) + b2n (bashPat2 s) + b2n (bashPat3 s) + b2n (bashPat4 s)
    + b2n (bashPat5 s) + b2n (bashPat6 s)

/-- Number of matching go signature patterns. -/
def scoreGo (s : Str) : Nat :=
  b2n (goPat1 s) + b2n (goPat2 s) + b2n (goPat3 s) + b2n (goPat4 s)
    + b2n (goPat5 s) + b2n (goPat6 s) + b2n (goPat7 s)

/-- Number of matching python signature patterns (pattern 6 is the same
regex as bash pattern 6). -/
def scorePython (s : Str) : Nat :=
  b2n (pyPat1 s) + b2n (pyPat2 s) + b2n (pyPat3 s) + b2n (pyPat4 s)
    + b2n (pyPat5 s) + b2n (bashPat6 s) + b2n (pyPat7 s)

/-- The dict insertion order of `language_patterns`. -/
def langNames : List Str :=
  [("json").data, ("yaml").data, ("bash").data, ("go").data, ("python").data]

/-- Score of one language on (already stripped) content `s`. -/
def scoreOf (s : Str) (lang : Str) : Nat :=
  if lang == ("json").data then scoreJson s
  else if lang == ("yaml").data then scoreYaml s
  else if lang == ("bash").data then scoreBash s
  else if lang == ("go").data then scoreGo s
  else if lang == ("python").data then scorePython s
  else 0

/-- The keyword list of the priority-4 fallback. -/
def fallbackKeywords : List Str :=
  [("while").data, ("case").data, ("esac").data, ("done").data, ("echo").data]

/-- `CodeFormatter.detect_language`. -/
def detectLanguage (content : Str) : Str :=
  let s := pyStrip content
  if s == [] then ("text").data
  else if strStarts ("#!/bin/bash").data s || strStarts ("#!/bin/sh").data s then
    ("bash").data
  else if strStarts ("VERBOSE=").data s || strStarts ("INPUT_FILE=").data s
      || strStarts ("NS=").data s then
    ("bash").data
  else if (strStarts ("\x7b").data s && strEnds ("\x7d").data s)
      || (strStarts ("[").data s && strEnds ("]").data s) then
    ("json").data
  else
    let maxScore := (langNames.map (scoreOf s)).foldl max 0
    if 2 ≤ scoreBash s && maxScore ≤ scoreBash s then ("bash").data
    else
      match langNames.find? (fun l => 2 ≤ scoreOf s l) with
      | some l => l
      | none =>
        if fallbackKeywords.any (fun kw => hasSub kw (lowerStr s)) then ("bash").data
        else ("text").data

/-! ## Structural formatters (code_formatter.py)

Each formatter is a line fold carrying an integer nesting level. The level
is modelled as `Int` so the clamping behaviour (`max(0, level - 1)` and
Python's empty result for `"  " * negative`) is stated, not built in. The
`try/except` wrappers in the source are dead code for these bodies (no
statement inside can raise) and are not modelled. -/

/-- `n` levels of two-space bash indentation (`"  " * n`, empty when
`n < 0` as in Python). -/
def bashIndent (n : Int) : Str := List.replicate (2 * n).toNat ' '

/-- `n` levels of tab indentation for go. -/
def goIndent (n : Int) : Str := List.replicate n.toNat '\t'

/-- `n` levels of four-space python indentation. -/
def pyIndent (n : Int) : Str := List.replicate (4 * n).toNat ' '

/-- `decrease_indent_keywords` of `format_bash`. -/
def bashDecreaseKw : List Str :=
  [("fi").data, ("done").data, ("esac").data, ("\x7d").data, (";;").data]

/-- `same_level_keywords` of `format_bash`. -/
def bashSameLevelKw : List Str :=
  [("else").data, ("elif").data, (";;").data, ("esac").data]

/-- The same-level keyword loop of `format_bash`. -/
def bashSameLevelHit (stripped : Str) : Bool :=
  bashSameLevelKw.any fun kw =>
    strStarts (kw ++ [' ']) stripped || stripped == kw
      || strStarts (kw ++ [')']) stripped

/-- The special closing-keyword condition of `format_bash` (all redundant
disjuncts kept as written). -/
def bashClosingHit (stripped : Str) : Bool :=
  bashDecreaseKw.contains stripped || strStarts (";;").data stripped
    || stripped == ("\x7d").data || strStarts ("\x7d").data stripped
    || stripped == ("fi").data || stripped == ("done").data
    || stripped == ("esac").data

/-- Scanner for the `$var` substitution; the fuel is the input length, and
every step consumes at least one character, so the first case is never hit
from `bashVarSub`. -/
def bashVarSubGo : Nat → Str → Str
  | 0, s => s
  | _ + 1, [] => []
  | f + 1, '$' :: c :: t =>
    if alphaUnder c then
      match t.dropWhile identChar with
      | '\x7d' :: _ => '$' :: bashVarSubGo f (c :: t)
      | rest => '$' :: '\x7b' :: (c :: t.takeWhile identChar) ++ '\x7d' :: bashVarSubGo f rest
    else '$' :: bashVarSubGo f (c :: t)
  | f + 1, c :: t => c :: bashVarSubGo f t

/-- The substitution normalizing `$var` (but not `${var}`) to a braced
reference: a dollar, an identifier, a word boundary, not followed by a
closing brace. -/
def bashVarSub (s : Str) : Str := bashVarSubGo s.length s

/-- The indent-increase condition of `format_bash`, with Python's operator
precedence: `A or B or (C and D) or (E and G)`. -/
def bashIncCond (stripped : Str) : Bool :=
  (([("then").data, ("do").data]).any fun kw =>
      strEnds (' ' :: kw) stripped || strEnds kw stripped)
    || strEnds ("\x7b").data stripped
    || ((([("if").data, ("while").data, ("for").data, ("function").data]).any
          fun w => (pyWords stripped).contains w)
        && (strEnds ("then").data stripped || strEnds ("do").data stripped))
    || (strEnds (")").data stripped && hasSub ("case").data stripped)

/-- The `case`-pattern elif branch guard of `format_bash`. -/
def bashCaseCond (stripped : Str) : Bool :=
  strStarts ("case ").data stripped || strEnds (")").data stripped

/-- The nested guard of the `case` branch: no decrease keyword occurs as a
substring. -/
def bashNoDecSub (stripped : Str) : Bool :=
  !(bashDecreaseKw.any fun w => hasSub w stripped)

/-- The final decrement branch guard of `format_bash`. -/
def bashDecCond (stripped : Str) : Bool :=
  bashDecreaseKw.any fun kw => strStarts kw stripped || stripped == kw

/-- One line of `format_bash` on the stripped line: rendered line and next
nesting level. -/
def bashStepCore (lvl : Int) (stripped : Str) : Str × Int :=
  if stripped == [] then ([], lvl)
  else if strStarts ("#").data stripped then (bashIndent lvl ++ stripped, lvl)
  else
    (bashIndent
        (if bashSameLevelHit stripped || bashClosingHit stripped then max 0 (lvl - 1)
         else lvl)
      ++ bashVarSub stripped,
     if bashIncCond stripped then lvl + 1
     else if bashCaseCond stripped then
       if bashNoDecSub stripped then lvl + 1 else lvl
     else if bashDecCond stripped then max 0 (lvl - 1)
     else lvl)

/-- One line of `format_bash`. -/
def bashStep (lvl : Int) (line : Str) : Str × Int :=
  bashStepCore lvl (pyStrip line)

/-- The line fold of `format_bash`. -/
def bashFold (lvl : Int) : List Str → List Str
  | [] => []
  | l :: ls =>
    let s := bashStep lvl l
    s.1 :: bashFold s.2 ls

/-- `CodeFormatter.format_bash`. -/
def formatBash (content : Str) : Str :=
  joinLines (bashFold 0 (splitLines content))

/-- The closing-token list of `format_go`. -/
def goCloseList : List Str :=
  [("\x7d").data, ("\x7d):").data, ("\x7d,").data, ("];").data]

/-- The control-structure keyword heads of `format_go`. -/
def goKwHeads : List Str :=
  [("if").data, ("for").data, ("func").data, ("switch").data,
   ("select").data, ("type").data, ("struct").data]

/-- Case-sensitive keyword at line start with a following word boundary. -/
def goKwHead (stripped : Str) : Bool :=
  goKwHeads.any fun kw =>
    strStarts kw stripped
      && (match stripped.drop kw.length with
          | [] => true
          | c :: _ => !identChar c)

/-- The indent-increase condition of `format_go`. -/
def goIncCond (stripped : Str) : Bool :=
  strEnds ("\x7b").data stripped
    || (strEnds ("(").data stripped && 10 < stripped.length)
    || strEnds ("[").data stripped
    || (goKwHead stripped && strEnds ("\x7b").data stripped)
    || (strStarts ("func").data stripped
        && (match stripped.drop 4 with
            | [] => true
            | c :: _ => !identChar c)
        && strEnds ("(").data stripped)

/-- One line of `format_go` on the stripped line. -/
def goStepCore (lvl : Int) (stripped : Str) : Str × Int :=
  if stripped == [] then ([], lvl)
  else if strStarts ("//").data stripped then (goIndent lvl ++ stripped, lvl)
  else if goCloseList.contains stripped then
    (goIndent (max 0 (lvl - 1)) ++ stripped,
     if goIncCond stripped then max 0 (lvl - 1) + 1 else max 0 (lvl - 1))
  else
    (goIndent lvl ++ stripped, if goIncCond stripped then lvl + 1 else lvl)

/-- One line of `format_go`. -/
def goStep (lvl : Int) (line : Str) : Str × Int :=
  goStepCore lvl (pyStrip line)

/-- The line fold of `format_go`. -/
def goFold (lvl : Int) : List Str → List Str
  | [] => []
  | l :: ls =>
    let s := goStep lvl l
    s.1 :: goFold s.2 ls

/-- `CodeFormatter.format_go`. -/
def formatGo (content : Str) : Str :=
  joinLines (goFold 0 (splitLines content))

/-- The dedenting keyword heads of `format_python` (case-sensitive, word
boundary after). -/
def pyDedentMatch (stripped : Str) : Bool :=
  [("else").data, ("elif").data, ("except").data, ("finally").data,
   ("case").data].any fun kw =>
    strStarts kw stripped
      && (match stripped.drop kw.length with
          | [] => true
          | c :: _ => !identChar c)

/-- The dedented level of a python line (`else`-family keywords and lone
closing brackets go back one level). -/
def pythonLvl1 (lvl : Int) (stripped : Str) : Int :=
  if pyDedentMatch stripped then max 0 (lvl - 1)
  else if [(")").data, ("]").data, ("\x7d").data].contains stripped then
    max 0 (lvl - 1)
  else lvl

/-- One line of `format_python` on the stripped line. -/
def pythonStepCore (lvl : Int) (stripped : Str) : Str × Int :=
  if stripped == [] then ([], lvl)
  else if strStarts ("#").data stripped then (pyIndent lvl ++ stripped, lvl)
  else
    (pyIndent (pythonLvl1 lvl stripped) ++ stripped,
     if strEnds (":").data stripped && !strStarts ("#").data stripped then
       pythonLvl1 lvl stripped + 1
     else if strEnds ("(").data stripped || strEnds ("[").data stripped
         || strEnds ("\x7b").data stripped then pythonLvl1 lvl stripped + 1
     else pythonLvl1 lvl stripped)

/-- One line of `format_python`. -/
def pythonStep (lvl : Int) (line : Str) : Str × Int :=
  pythonStepCore lvl (pyStrip line)

/-- The line fold of `format_python`. -/
def pythonFold (lvl : Int) : List Str → List Str
  | [] => []
  | l :: ls =>
    let s := pythonStep lvl l
    s.1 :: pythonFold s.2 ls

/-- `CodeFormatter.format_python`. -/
def formatPython (content : Str) : Str :=
  joinLines (pythonFold 0 (splitLines content))

/-- One line of `format_yaml`: comments and blanks pass through stripped;
other lines get their leading-whitespace count rounded down to an even
number of spaces. -/
def yamlLine (line : Str) : Str :=
  let stripped := pyStrip line
  if stripped == [] || strStarts ("#").data stripped then stripped
  else
    let norm := ((line.takeWhile pySpace).length / 2) * 2
    if stripped.contains ':' && !strStarts ("-").data stripped then
      spaces norm ++ pyStrip (stripped.takeWhile (fun c => c != ':'))
        ++ (": ").data
        ++ pyStrip ((stripped.dropWhile (fun c => c != ':')).drop 1)
    else if strStarts ("-").data stripped then
      spaces norm ++ ("- ").data ++ pyStrip (stripped.drop 1)
    else spaces norm ++ stripped

/-- `CodeFormatter.format_yaml`. -/
def formatYaml (content : Str) : Str :=
  joinLines ((splitLines content).map yamlLine)

/-! ## JSON values, printer and parser

Models the standard-library `json.loads` / `json.dumps(indent=2,
ensure_ascii=False, sort_keys=True)` calls made by `format_json`. The model
restricts JSON numbers to integers (float semantics are outside the shallow
embedding) and rejects `\u` escapes in the surrogate range, so "valid JSON"
below means accepted by this model parser; on that common domain the model
follows the Python library exactly. Python dict values are represented
canonically: object keys strictly sorted by code point, duplicate keys
resolved to the last occurrence, which is a complete invariant for Python's
`==` on parsed values. -/

mutual
inductive Json where
  | null : Json
  | bool (b : Bool) : Json
  | num (n : Int) : Json
  | str (s : Str) : Json
  | arr (xs : JArr) : Json
  | obj (kvs : JObj) : Json
  deriving DecidableEq

inductive JArr where
  | nil : JArr
  | cons (x : Json) (xs : JArr) : JArr
  deriving DecidableEq

inductive JObj where
  | nil : JObj
  | cons (k : Str) (v : Json) (kvs : JObj) : JObj
  deriving DecidableEq
end

/-- Digit character for a value below ten. -/
def digitCh : Nat → Char
  | 0 => '0' | 1 => '1' | 2 => '2' | 3 => '3' | 4 => '4'
  | 5 => '5' | 6 => '6' | 7 => '7' | 8 => '8' | _ => '9'

/-- Fuel-based decimal printer loop (most significant digit first; the fuel
`n` itself is always sufficient). -/
def natStrAux : Nat → Nat → Str → Str
  | 0, _, acc => acc
  | f + 1, n, acc => if n = 0 then acc else natStrAux f (n / 10) (digitCh (n % 10) :: acc)

/-- Decimal representation of a natural number, Python's `str(n)`. -/
def natStr (n : Nat) : Str := if n = 0 then [('0')] else natStrAux n n []

/-- Decimal representation of an integer, Python's `str(n)`. -/
def intStr (n : Int) : Str :=
  if n < 0 then '-' :: natStr n.natAbs else natStr n.natAbs

/-- Lowercase hex digit. -/
def hexCh (n : Nat) : Char :=
  if n < 10 then digitCh n
  else if n = 10 then 'a' else if n = 11 then 'b' else if n = 12 then 'c'
  else if n = 13 then 'd' else if n = 14 then 'e' else 'f'

/-- The escape of one character in `json.dumps(ensure_ascii=False)`:
backslash, quote and C0 control characters only. -/
def escChar (c : Char) : Str :=
  if c = '"' then ['\\', '"']
  else if c = '\\' then ['\\', '\\']
  else if c = '\x08' then ['\\', 'b']
  else if c = '\x0c' then ['\\', 'f']
  else if c = '\n' then ['\\', 'n']
  else if c = '\r' then ['\\', 'r']
  else if c = '\t' then ['\\', 't']
  else if c.toNat < 0x20 then
    ['\\', 'u', '0', '0', hexCh (c.toNat / 16), hexCh (c.toNat % 16)]
  else [c]

/-- String-body escaping of `json.dumps`. -/
def escStr : Str → Str
  | [] => []
  | c :: t => escChar c ++ escStr t

/-- A quoted, escaped JSON string literal. -/
def quoteStr (s : Str) : Str := '"' :: escStr s ++ ['"']

/-- Newline plus the two-space-per-level indentation of `indent=2`. -/
def nlIndent (lvl : Nat) : Str := '\n' :: List.replicate (2 * lvl) ' '

mutual
/-- The layout of `json.dumps(indent=2)` at nesting level `lvl`. Keys are
printed in stored order; on the canonical values this model constructs that
is exactly `sort_keys=True`. -/
def printAt : Nat → Json → Str
  | _, .null => ("null").data
  | _, .bool true => ("true").data
  | _, .bool false => ("false").data
  | _, .num n => intStr n
  | _, .str s => quoteStr s
  | _, .arr .nil => ("[]").data
  | lvl, .arr (.cons x xs) =>
    '[' :: printArrItems (lvl + 1) (.cons x xs) ++ nlIndent lvl ++ [(']')]
  | _, .obj .nil => ("\x7b\x7d").data
  | lvl, .obj (.cons k v kvs) =>
    '\x7b' :: printObjItems (lvl + 1) (.cons k v kvs) ++ nlIndent lvl ++ [('\x7d')]

/-- Array items, each on its own indented line, comma separated. -/
def printArrItems : Nat → JArr → Str
  | _, .nil => []
  | lvl, .cons x .nil => nlIndent lvl ++ printAt lvl x
  | lvl, .cons x (.cons y ys) =>
    nlIndent lvl ++ printAt lvl x ++ ',' :: printArrItems lvl (.cons y ys)

/-- Object members, each on its own indented line, comma separated. -/
def printObjItems : Nat → JObj → Str
  | _, .nil => []
  | lvl, .cons k v .nil => nlIndent lvl ++ quoteStr k ++ (": ").data ++ printAt lvl v
  | lvl, .cons k v (.cons k2 v2 t) =>
    nlIndent lvl ++ quoteStr k ++ (": ").data ++ printAt lvl v
      ++ ',' :: printObjItems lvl (.cons k2 v2 t)
end

/-- `json.dumps(value, indent=2, ensure_ascii=False, sort_keys=True)`. -/
def dumps (v : Json) : Str := printAt 0 v

/-- Strict code-point lexicographic order on keys, Python's `str <`. -/
def keyLt : Str → Str → Bool
  | [], [] => false
  | [], _ :: _ => true
  | _ :: _, [] => false
  | a :: as, b :: bs => a.toNat < b.toNat || (a == b && keyLt as bs)

/-- Insert a key into a sorted object, keeping any existing binding (used
right to left over textual entries, so the last textual value survives, as
in Python's `dict(pairs)`). -/
def insertIfAbsent (k : Str) (v : Json) : JObj → JObj
  | .nil => .cons k v .nil
  | .cons k0 v0 t =>
    if keyLt k k0 then .cons k v (.cons k0 v0 t)
    else if k == k0 then .cons k0 v0 t
    else .cons k0 v0 (insertIfAbsent k v t)

mutual
/-- Canonical form: object keys sorted, duplicates resolved last-wins. -/
def canonJson : Json → Json
  | .null => .null
  | .bool b => .bool b
  | .num n => .num n
  | .str s => .str s
  | .arr xs => .arr (canonArr xs)
  | .obj kvs => .obj (canonObj kvs)

/-- Canonicalize each array element. -/
def canonArr : JArr → JArr
  | .nil => .nil
  | .cons x xs => .cons (canonJson x) (canonArr xs)

/-- Canonicalize an object's entries (entries are in textual order; fold
from the right so later duplicates win). -/
def canonObj : JObj → JObj
  | .nil => .nil
  | .cons k v t => insertIfAbsent k (canonJson v) (canonObj t)
end

/-- All keys of an object are strictly above `k`. -/
def keyLtAll (k : Str) : JObj → Bool
  | .nil => true
  | .cons k0 _ t => keyLt k k0 && keyLtAll k t

mutual
/-- Well-formed values: every object strictly sorted by key. The parser
produces only such values and the printer round-trips exactly on them. -/
def jwf : Json → Bool
  | .null => true
  | .bool _ => true
  | .num _ => true
  | .str _ => true
  | .arr xs => awf xs
  | .obj kvs => owf kvs

/-- Well-formedness of array elements. -/
def awf : JArr → Bool
  | .nil => true
  | .cons x xs => jwf x && awf xs

/-- Well-formedness of object entries: sorted keys, well-formed values. -/
def owf : JObj → Bool
  | .nil => true
  | .cons k v t => keyLtAll k t && jwf v && owf t
end

/-- The JSON scanner's whitespace class (space, tab, newline, return). -/
def jsWs (c : Char) : Bool :=
  c == ' ' || c == '\t' || c == '\n' || c == '\r'

/-- Skip JSON whitespace. -/
def skipJsWs (s : Str) : Str := s.dropWhile jsWs

/-- Value of one hex digit, either case. -/
def hexVal (c : Char) : Option Nat :=
  if '0' ≤ c && c ≤ '9' then some (c.toNat - 48)
  else if 'a' ≤ c && c ≤ 'f' then some (c.toNat - 87)
  else if 'A' ≤ c && c ≤ 'F' then some (c.toNat - 55)
  else none

/-- Short escapes of the JSON string grammar. -/
def escMapChar : Char → Option Char
  | '"' => some '"'
  | '\\' => some '\\'
  | '/' => some '/'
  | 'b' => some '\x08'
  | 'f' => some '\x0c'
  | 'n' => some '\n'
  | 'r' => some '\r'
  | 't' => some '\t'
  | _ => none

/-- String body scanner (after the opening quote): strict mode, raw control
characters rejected; `\u` escapes accepted outside the surrogate range. -/
def parseStrF : Nat → Str → Option (Str × Str)
  | 0, _ => none
  | _ + 1, [] => none
  | f + 1, c :: t =>
    if c = '"' then some ([], t)
    else if c = '\\' then
      match t with
      | 'u' :: h1 :: h2 :: h3 :: h4 :: t4 =>
        (match hexVal h1, hexVal h2, hexVal h3, hexVal h4 with
         | some a, some b, some c2, some d =>
           let v := ((a * 16 + b) * 16 + c2) * 16 + d
           if 0xd800 ≤ v && v ≤ 0xdfff then none
           else (parseStrF f t4).map (fun r => (Char.ofNat v :: r.1, r.2))
         | _, _, _, _ => none)
      | e :: t1 =>
        (match escMapChar e with
         | some ch => (parseStrF f t1).map (fun r => (ch :: r.1, r.2))
         | none => none)
      | [] => none
    else if c.toNat < 0x20 then none
    else (parseStrF f t).map (fun r => (c :: r.1, r.2))

/-- Integer value of a digit run. -/
def digitsVal (run : Str) : Nat :=
  run.foldl (fun a c => a * 10 + (c.toNat - 48)) 0

/-- Number scanner: optional minus, then `0` alone or a nonzero-led digit
run (the integer production of the JSON number grammar; fraction and
exponent forms are outside this model). -/
def parseNumAt (s : Str) : Option (Json × Str) :=
  let core : Str → Option (Nat × Str) := fun u =>
    match u with
    | '0' :: t => some (0, t)
    | c :: t =>
      if c.isDigit then
        some (digitsVal ((c :: t).takeWhile Char.isDigit),
              (c :: t).dropWhile Char.isDigit)
      else none
    | [] => none
  match s with
  | '-' :: t => (core t).map (fun r => (.num (-(r.1 : Int)), r.2))
  | _ => (core s).map (fun r => (.num (r.1 : Int), r.2))

mutual
/-- Value scanner of `json.loads` (`scan_once`): dispatch on the first
character; the fuel only bounds recursion depth and is always sufficient
when at least twice the input length. -/
def parseVal : Nat → Str → Option (Json × Str)
  | 0, _ => none
  | f + 1, s =>
    match s with
    | [] => none
    | '\x7b' :: t =>
      (match skipJsWs t with
       | '\x7d' :: t2 => some (.obj .nil, t2)
       | t1 => (parseMembers f t1).map (fun r => (.obj r.1, r.2)))
    | '[' :: t =>
      (match skipJsWs t with
       | ']' :: t2 => some (.arr .nil, t2)
       | t1 => (parseItems f t1).map (fun r => (.arr r.1, r.2)))
    | '"' :: t => (parseStrF f t).map (fun r => (.str r.1, r.2))
    | 'n' :: t => if strStarts ("ull").data t then some (.null, t.drop 3) else none
    | 't' :: t => if strStarts ("rue").data t then some (.bool true, t.drop 3) else none
    | 'f' :: t => if strStarts ("alse").data t then some (.bool false, t.drop 4) else none
    | _ => parseNumAt s

/-- Array items, positioned at a value start. -/
def parseItems : Nat → Str → Option (JArr × Str)
  | 0, _ => none
  | f + 1, s =>
    match parseVal f s with
    | none => none
    | some (v, r) =>
      match skipJsWs r with
      | ',' :: r2 => (parseItems f (skipJsWs r2)).map (fun q => (.cons v q.1, q.2))
      | ']' :: r2 => some (.cons v .nil, r2)
      | _ => none

/-- Object members, positioned at a key start (a quote is required). -/
def parseMembers : Nat → Str → Option (JObj × Str)
  | 0, _ => none
  | f + 1, s =>
    match s with
    | '"' :: t =>
      (match parseStrF f t with
       | none => none
       | some (k, r) =>
         match skipJsWs r with
         | ':' :: r2 =>
           (match parseVal f (skipJsWs r2) with
            | none => none
            | some (v, r3) =>
              match skipJsWs r3 with
              | ',' :: r4 =>
                (parseMembers f (skipJsWs r4)).map (fun q => (.cons k v q.1, q.2))
              | '\x7d' :: r4 => some (.cons k v .nil, r4)
              | _ => none)
         | _ => none)
    | _ => none
end

/-- `json.loads`: skip leading whitespace, scan one value, require only
whitespace after it; the result is stored canonically. -/
def loads (s : Str) : Option Json :=
  match parseVal (2 * s.length + 2) (skipJsWs s) with
  | some (v, r) => if skipJsWs r == [] then some (canonJson v) else none
  | none => none

/-- `CodeFormatter.format_json` with `raise_on_error=False`: parse failures
return the content unchanged. -/
def formatJson (content : Str) : Str :=
  match loads content with
  | some v => dumps v
  | none => content

/-! ## IndentationPreserver and CodeFormatter.format_code_block

Optional hints model Python's `Optional[str]`; Python truthiness tests on
hints (`language if language else ...`) treat the empty string like `None`,
and both translations below keep that check explicit. -/

/-- Python's `language if language else d` on an optional hint. -/
def hintOr (h : Option Str) (d : Str) : Str :=
  match h with
  | none => d
  | some l => if l == [] then d else l

/-- `IndentationPreserver._simple_language_detection`. -/
def simpleLangDetect (content : Str) : Str :=
  if strStarts ("#!/bin/bash").data content || strStarts ("#!/bin/sh").data content then
    ("bash").data
  else if strStarts ("\x7b").data (pyStrip content)
      && strEnds ("\x7d").data (pyStrip content) then
    ("json").data
  else if strStarts ("[").data (pyStrip content)
      && strEnds ("]").data (pyStrip content) then
    ("json").data
  else if hasSub ("echo ").data (lowerStr content)
      || hasSub ("if [").data (lowerStr content)
      || hasSub ("$(").data content then
    ("bash").data
  else if hasSub ("---").data content || hasSub ("apiVersion:").data content
      || hasSub ("kind:").data content then
    ("yaml").data
  else ("text").data

/-- `IndentationPreserver.preserve_indentation` (also its alias
`format_with_preserved_indentation`): per-line trailing-whitespace cleanup
when `min_cleanup` is set, leading whitespace untouched. -/
def preserveIndentation (minCleanup : Bool) (content : Str) (hint : Option Str) :
    Str × Str :=
  if pyStrip content == [] then
    (content,
     match hint with
     | some h => if h == [] then ("text").data else h
     | none => ("text").data)
  else
    let pc := joinLines ((splitLines content).map (fun l =>
      if minCleanup then (if pyStrip l == [] then [] else pyRStrip l) else l))
    (pc,
     match hint with
     | some h => if h == [] then simpleLangDetect pc else h
     | none => simpleLangDetect pc)

/-- The recognized-language list of `format_code_block`. -/
def langFive : List Str :=
  [("bash").data, ("python").data, ("go").data, ("json").data, ("yaml").data]

/-- The standardized-formatting dispatch of `format_code_block` on an
already-resolved language string `lang` (the source's `language` variable
after its `if not language` rebinding). -/
def stdDispatch (content : Str) (lang : Str) : Str × Str :=
  if lang == ("json").data then
    match loads content with
    | some v => (dumps v, ("json").data)
    | none =>
      if detectLanguage content != ("json").data then
        (if detectLanguage content == ("bash").data then formatBash content
         else if detectLanguage content == ("yaml").data then formatYaml content
         else content, detectLanguage content)
      else (content, ("json").data)
  else if lang == ("yaml").data then (formatYaml content, lang)
  else if lang == ("bash").data then (formatBash content, lang)
  else if lang == ("go").data then (formatGo content, lang)
  else if lang == ("python").data then (formatPython content, lang)
  else
    if detectLanguage content == ("json").data then
      (formatJson content, detectLanguage content)
    else if detectLanguage content == ("yaml").data then
      (formatYaml content, detectLanguage content)
    else if detectLanguage content == ("bash").data then
      (formatBash content, detectLanguage content)
    else if detectLanguage content == ("go").data then
      (formatGo content, detectLanguage content)
    else if detectLanguage content == ("python").data then
      (formatPython content, detectLanguage content)
    else (content, lang)

/-- The standardized-formatting part of `format_code_block` (the code after
the preservation check): hint-directed formatting with re-detection
fallbacks. -/
def stdFormat (content : Str) (language : Option Str) : Str × Str :=
  stdDispatch content (hintOr language (detectLanguage content))

/-- `CodeFormatter.format_code_block`; `preserve` and `minCleanup` are the
constructor flags (`CodeFormatter()` defaults are `false` and `true`). The
source's block-level `try/except` never fires: every branch below is total. -/
def formatCodeBlock (preserve minCleanup : Bool) (content : Str)
    (language : Option Str) : Str × Str :=
  if langFive.contains (hintOr language (detectLanguage content)) then
    stdFormat content language
  else if preserve then preserveIndentation minCleanup content language
  else stdFormat content language

/-! ## Helper lemmas -/

/-- A nonempty prefix forces a nonempty string. -/
theorem strStarts_ne_nil {a : Char} {p s : Str}
    (h : strStarts (a :: p) s = true) : s ≠ [] := by
  cases s with
  | nil => simp [strStarts] at h
  | cons c t => exact List.cons_ne_nil c t

/-- Matching heads of two successful prefix tests agree. -/
theorem strStarts_head {a : Char} {p : Str} {c : Char} {s : Str}
    (h : strStarts (a :: p) (c :: s) = true) : a = c := by
  simp only [strStarts, Bool.and_eq_true, beq_iff_eq] at h
  exact h.1

/-! ## C5: strong single-shot signatures of the classifier -/

/-- A fragment whose stripped text is bounded by matching braces or
brackets classifies as json regardless of its other content. -/
theorem detect_json_of_bounded {c : Str}
    (h : ((strStarts ("\x7b").data (pyStrip c) && strEnds ("\x7d").data (pyStrip c))
        || (strStarts ("[").data (pyStrip c) && strEnds ("]").data (pyStrip c)))
      = true) :
    detectLanguage c = ("json").data := by
  cases hs : pyStrip c with
  | nil =>
    rw [hs] at h
    simp [strStarts] at h
  | cons x t =>
    rw [hs] at h
    have hx : x = '\x7b' ∨ x = '[' := by
      rcases Bool.or_eq_true_iff.mp h with h1 | h2
      · exact Or.inl (strStarts_head (Bool.and_eq_true_iff.mp h1).1).symm
      · exact Or.inr (strStarts_head (Bool.and_eq_true_iff.mp h2).1).symm
    have hneShe : (strStarts ("#!/bin/bash").data (x :: t)
        || strStarts ("#!/bin/sh").data (x :: t)) = false := by
      rcases hx with hx | hx <;> subst hx <;> simp [strStarts]
    have hneAssign : (strStarts ("VERBOSE=").data (x :: t)
        || strStarts ("INPUT_FILE=").data (x :: t)
        || strStarts ("NS=").data (x :: t)) = false := by
      rcases hx with hx | hx <;> subst hx <;> simp [strStarts]
    simp [detectLanguage, hs, h, hneShe, hneAssign]

/-- Claim C5: the classifier's strong single-shot signatures are checked
before scoring and decide the result on their own. A fragment whose
stripped text starts with the shell shebang `#!/bin/bash` or `#!/bin/sh`
classifies as "bash"; one whose stripped text starts with one of the known
shell-assignment idioms `VERBOSE=`, `INPUT_FILE=`, `NS=` classifies as
"bash"; one whose stripped text is bounded by matching braces or brackets
classifies as "json". -/
theorem detect_strong_signatures (c : Str) :
    ((strStarts ("#!/bin/bash").data (pyStrip c)
        || strStarts ("#!/bin/sh").data (pyStrip c)) = true →
      detectLanguage c = ("bash").data)
    ∧ ((strStarts ("VERBOSE=").data (pyStrip c)
        || strStarts ("INPUT_FILE=").data (pyStrip c)
        || strStarts ("NS=").data (pyStrip c)) = true →
      detectLanguage c = ("bash").data)
    ∧ (((strStarts ("\x7b").data (pyStrip c) && strEnds ("\x7d").data (pyStrip c))
        || (strStarts ("[").data (pyStrip c) && strEnds ("]").data (pyStrip c))) = true →
      detectLanguage c = ("json").data) := by
  refine ⟨?_, ?_, ?_⟩
  · intro h
    cases hs : pyStrip c with
    | nil => rw [hs] at h; simp [strStarts] at h
    | cons x t =>
      rw [hs] at h
      simp [detectLanguage, hs, h]
  · intro h
    cases hs : pyStrip c with
    | nil => rw [hs] at h; simp [strStarts] at h
    | cons x t =>
      rw [hs] at h
      have hx : x = 'V' ∨ x = 'I' ∨ x = 'N' := by
        rcases Bool.or_eq_true_iff.mp h with h1 | h2
        · rcases Bool.or_eq_true_iff.mp h1 with h3 | h4
          · exact Or.inl (strStarts_head h3).symm
          · exact Or.inr (Or.inl (strStarts_head h4).symm)
        · exact Or.inr (Or.inr (strStarts_head h2).symm)
      have hneShe : (strStarts ("#!/bin/bash").data (x :: t)
          || strStarts ("#!/bin/sh").data (x :: t)) = false := by
        rcases hx with hx | hx | hx <;> subst hx <;> simp [strStarts]
      simp [detectLanguage, hs, h, hneShe]
  · intro h
    exact detect_json_of_bounded h

/-- Witness for C5 at concrete fragments: a shebang fragment, an `NS=`
fragment and a brace-bounded fragment. -/
theorem detect_strong_signatures_witness :
    detectLanguage ("#!/bin/bash\necho hi").data = ("bash").data
    ∧ detectLanguage ("NS=openshift").data = ("bash").data
    ∧ detectLanguage ("\x7b\"a\": 1\x7d").data = ("json").data :=
  ⟨(detect_strong_signatures _).1 (by decide),
   (detect_strong_signatures _).2.1 (by decide),
   (detect_strong_signatures _).2.2 (by decide)⟩

/-! ## C4: scoring-stage dispatch of the classifier -/

/-- Evaluation of `scoreOf` at the "json" tag. -/
theorem scoreOf_json (s : Str) : scoreOf s (("json").data) = scoreJson s := by
  unfold scoreOf; rw [if_pos (by decide)]

/-- Evaluation of `scoreOf` at the "yaml" tag. -/
theorem scoreOf_yaml (s : Str) : scoreOf s (("yaml").data) = scoreYaml s := by
  unfold scoreOf; rw [if_neg (by decide), if_pos (by decide)]

/-- Evaluation of `scoreOf` at the "bash" tag. -/
theorem scoreOf_bash (s : Str) : scoreOf s (("bash").data) = scoreBash s := by
  unfold scoreOf; rw [if_neg (by decide), if_neg (by decide), if_pos (by decide)]

/-- Evaluation of `scoreOf` at the "go" tag. -/
theorem scoreOf_go (s : Str) : scoreOf s (("go").data) = scoreGo s := by
  unfold scoreOf
  rw [if_neg (by decide), if_neg (by decide), if_neg (by decide), if_pos (by decide)]

/-- Evaluation of `scoreOf` at the "python" tag. -/
theorem scoreOf_python (s : Str) : scoreOf s (("python").data) = scorePython s := by
  unfold scoreOf
  rw [if_neg (by decide), if_neg (by decide), if_neg (by decide), if_neg (by decide),
    if_pos (by decide)]

/-- The folded maximum of the score table is dominated by the bash score
exactly when every language's score is. -/
theorem maxScore_le_iff (s : Str) :
    ((langNames.map (scoreOf s)).foldl max 0 ≤ scoreBash s) ↔
      ∀ l ∈ langNames, scoreOf s l ≤ scoreBash s := by
  simp only [langNames, List.map_cons, List.map_nil, List.foldl_cons, List.foldl_nil,
    List.mem_cons, List.not_mem_nil, or_false, forall_eq_or_imp, forall_eq,
    max_le_iff, scoreOf_json, scoreOf_yaml, scoreOf_bash, scoreOf_go, scoreOf_python]
  omega

/-- Claim C4: in the scoring stage (no strong signature fired), a bash score
of at least two that is at least every language's score selects "bash";
otherwise the classifier returns the first language in the fixed enumeration
order (json, yaml, bash, go, python) whose score reaches two. -/
theorem detect_scoring_dispatch (c : Str) (hne : (pyStrip c == []) = false)
    (hshe : (strStarts ("#!/bin/bash").data (pyStrip c)
      || strStarts ("#!/bin/sh").data (pyStrip c)) = false)
    (hassign : (strStarts ("VERBOSE=").data (pyStrip c)
      || strStarts ("INPUT_FILE=").data (pyStrip c)
      || strStarts ("NS=").data (pyStrip c)) = false)
    (hbound : ((strStarts ("\x7b").data (pyStrip c) && strEnds ("\x7d").data (pyStrip c))
      || (strStarts ("[").data (pyStrip c) && strEnds ("]").data (pyStrip c))) = false) :
    ((2 ≤ scoreBash (pyStrip c)
        ∧ ∀ l ∈ langNames, scoreOf (pyStrip c) l ≤ scoreBash (pyStrip c)) →
      detectLanguage c = ("bash").data)
    ∧ (∀ l, ¬ (2 ≤ scoreBash (pyStrip c)
        ∧ ∀ m ∈ langNames, scoreOf (pyStrip c) m ≤ scoreBash (pyStrip c)) →
      langNames.find? (fun x => decide (2 ≤ scoreOf (pyStrip c) x)) = some l →
      detectLanguage c = l) := by
  constructor
  · rintro ⟨h2, hall⟩
    have hcond : (decide (2 ≤ scoreBash (pyStrip c))
        && decide ((langNames.map (scoreOf (pyStrip c))).foldl max 0
          ≤ scoreBash (pyStrip c))) = true := by
      simp [h2, (maxScore_le_iff (pyStrip c)).mpr hall]
    simp [detectLanguage, hne, hshe, hassign, hbound, hcond]
  · intro l hnot hfind
    have hcond : (decide (2 ≤ scoreBash (pyStrip c))
        && decide ((langNames.map (scoreOf (pyStrip c))).foldl max 0
          ≤ scoreBash (pyStrip c))) = false := by
      rw [Bool.eq_false_iff]
      intro htrue
      rcases Bool.and_eq_true_iff.mp htrue with ⟨ha, hb⟩
      exact hnot ⟨of_decide_eq_true ha,
        (maxScore_le_iff (pyStrip c)).mp (of_decide_eq_true hb)⟩
    simp [detectLanguage, hne, hshe, hassign, hbound, hcond, hfind]

/-- Witness for C4 at concrete fragments: a bash-maximal fragment through
the tie-break branch, and a yaml fragment through the enumeration branch. -/
theorem detect_scoring_dispatch_witness :
    detectLanguage ("x=1\nif y; then\nfi").data = ("bash").data
    ∧ detectLanguage ("a: |\nb: >").data = ("yaml").data :=
  ⟨(detect_scoring_dispatch _ (by decide) (by decide) (by decide) (by decide)).1
      (by decide),
   (detect_scoring_dispatch _ (by decide) (by decide) (by decide) (by decide)).2
      _ (by decide) (by decide)⟩

/-! ## C9: explicit language hints are authoritative -/

/-- With `preserve = false`, `format_code_block` is the standardized
dispatch in every case. -/
theorem formatCodeBlock_false (mc : Bool) (c : Str) (h : Option Str) :
    formatCodeBlock false mc c h = stdFormat c h := by
  unfold formatCodeBlock
  cases langFive.contains (hintOr h (detectLanguage c)) <;> simp

/-- A nonempty hint resolves `format_code_block` to the standardized
dispatch at that hint whenever the hint is one of the five languages. -/
theorem formatCodeBlock_hint (p mc : Bool) (c : Str) (l : Str)
    (hl : l ≠ []) (hin : langFive.contains l = true) :
    formatCodeBlock p mc c (some l) = stdDispatch c l := by
  have hle : (l == []) = false := by simpa using hl
  have hh : hintOr (some l) (detectLanguage c) = l := by
    simp [hintOr, hle]
  unfold formatCodeBlock stdFormat
  rw [hh, hin]
  simp

/-- Claim C9: a hint among yaml, bash, go, python is final — the hinted
formatter is applied and the hint is returned as the resolved language, in
any preservation mode; a json hint formats canonically when the content
parses, and re-detects (returning the re-detected language) only when
parsing fails. -/
theorem hint_authoritative (p mc : Bool) (c : Str) :
    formatCodeBlock p mc c (some (("yaml").data)) = (formatYaml c, ("yaml").data)
    ∧ formatCodeBlock p mc c (some (("bash").data)) = (formatBash c, ("bash").data)
    ∧ formatCodeBlock p mc c (some (("go").data)) = (formatGo c, ("go").data)
    ∧ formatCodeBlock p mc c (some (("python").data)) = (formatPython c, ("python").data)
    ∧ (∀ v, loads c = some v →
        formatCodeBlock p mc c (some (("json").data)) = (dumps v, ("json").data))
    ∧ (loads c = none →
        (formatCodeBlock p mc c (some (("json").data))).2 = detectLanguage c) := by
  refine ⟨?_, ?_, ?_, ?_, ?_, ?_⟩
  · rw [formatCodeBlock_hint p mc c _ (by decide) (by decide)]
    unfold stdDispatch
    rw [if_neg (by decide), if_pos (by decide)]
  · rw [formatCodeBlock_hint p mc c _ (by decide) (by decide)]
    unfold stdDispatch
    rw [if_neg (by decide), if_neg (by decide), if_pos (by decide)]
  · rw [formatCodeBlock_hint p mc c _ (by decide) (by decide)]
    unfold stdDispatch
    rw [if_neg (by decide), if_neg (by decide), if_neg (by decide), if_pos (by decide)]
  · rw [formatCodeBlock_hint p mc c _ (by decide) (by decide)]
    unfold stdDispatch
    rw [if_neg (by decide), if_neg (by decide), if_neg (by decide), if_neg (by decide),
      if_pos (by decide)]
  · intro v hv
    rw [formatCodeBlock_hint p mc c _ (by decide) (by decide)]
    unfold stdDispatch
    rw [if_pos (by decide), hv]
  · intro hv
    rw [formatCodeBlock_hint p mc c _ (by decide) (by decide)]
    unfold stdDispatch
    rw [if_pos (by decide), hv]
    by_cases hd : (detectLanguage c != ("json").data) = true
    · rw [if_pos hd]
    · rw [if_neg hd]
      have hj : detectLanguage c = ("json").data := by
        simpa [bne_iff_ne] using hd
      rw [hj]

/-- Witness for C9 at concrete contents: a yaml hint, a parsing json hint
and a failing json hint. -/
theorem hint_authoritative_witness :
    formatCodeBlock false true ("a: 1").data (some (("yaml").data))
        = (formatYaml ("a: 1").data, ("yaml").data)
    ∧ formatCodeBlock false true ("[1,2]").data (some (("json").data))
        = (("[\n  1,\n  2\n]").data, ("json").data)
    ∧ (formatCodeBlock false true ("notjson").data (some (("json").data))).2
        = detectLanguage ("notjson").data :=
  ⟨(hint_authoritative false true _).1,
   ((hint_authoritative false true _).2.2.2.2.1
      (.arr (.cons (.num 1) (.cons (.num 2) .nil))) (by decide)).trans (by decide),
   (hint_authoritative false true _).2.2.2.2.2 (by decide)⟩

/-! ## C7: canonical formatters win over preservation mode -/

/-- Claim C7: when the hint-or-detected language is one of the five
recognized languages, `format_code_block` is independent of the configured
preservation mode; the preservation path is taken exactly when preservation
is configured and the resolved language is not among the five. -/
theorem preservation_equivalence (p mc : Bool) (c : Str) (h : Option Str) :
    (langFive.contains (hintOr h (detectLanguage c)) = true →
      formatCodeBlock p mc c h = formatCodeBlock false mc c h)
    ∧ (langFive.contains (hintOr h (detectLanguage c)) = false →
      formatCodeBlock true mc c h = preserveIndentation mc c h) := by
  constructor
  · intro hin
    unfold formatCodeBlock
    rw [hin]
    simp
  · intro hout
    unfold formatCodeBlock
    rw [hout]
    simp

/-- Witness for C7: a bash fragment formats identically in both modes, and
plain text takes the preservation path in preservation mode. -/
theorem preservation_equivalence_witness :
    formatCodeBlock true true ("echo $HOME\nfi").data none
        = formatCodeBlock false true ("echo $HOME\nfi").data none
    ∧ formatCodeBlock true true ("hello world  ").data none
        = preserveIndentation true ("hello world  ").data none :=
  ⟨(preservation_equivalence true true _ none).1 (by decide),
   (preservation_equivalence true true _ none).2 (by decide)⟩

/-! ## C2: totality and worst case of format_block -/

/-- Claim C2: `format_block` (standard configuration) is total by
construction in this embedding — the only fallible subroutine, JSON
parsing, is Option-valued and every `none` is handled. Its result either
keeps the content unchanged or resolves to one of the five recognized
languages, and in the worst case — no hint, nothing detected — it returns
the input unchanged with resolved language "text". -/
theorem format_block_safety (c : Str) (h : Option Str) :
    ((formatCodeBlock false true c h).1 = c
      ∨ (formatCodeBlock false true c h).2 ∈ langFive)
    ∧ (detectLanguage c = ("text").data →
      formatCodeBlock false true c none = (c, ("text").data)) := by
  constructor
  · rw [formatCodeBlock_false]
    unfold stdFormat stdDispatch
    by_cases h1 : (hintOr h (detectLanguage c) == ("json").data) = true
    · rw [if_pos h1]
      cases hv : loads c with
      | some v => right; simp [langFive]
      | none =>
        by_cases hd : (detectLanguage c != ("json").data) = true
        · rw [if_pos hd]
          by_cases hb : (detectLanguage c == ("bash").data) = true
          · right
            have hb' : detectLanguage c = ("bash").data := by simpa using hb
            simp [hb', langFive]
          · by_cases hy : (detectLanguage c == ("yaml").data) = true
            · right
              have hy' : detectLanguage c = ("yaml").data := by simpa using hy
              simp [hy', langFive]
            · left
              simp [hb, hy]
        · rw [if_neg hd]
          right
          simp [langFive]
    · rw [if_neg h1]
      by_cases h2 : (hintOr h (detectLanguage c) == ("yaml").data) = true
      · rw [if_pos h2]
        right
        have h2' : hintOr h (detectLanguage c) = ("yaml").data := by simpa using h2
        simp [h2', langFive]
      · rw [if_neg h2]
        by_cases h3 : (hintOr h (detectLanguage c) == ("bash").data) = true
        · rw [if_pos h3]
          right
          have h3' : hintOr h (detectLanguage c) = ("bash").data := by simpa using h3
          simp [h3', langFive]
        · rw [if_neg h3]
          by_cases h4 : (hintOr h (detectLanguage c) == ("go").data) = true
          · rw [if_pos h4]
            right
            have h4' : hintOr h (detectLanguage c) = ("go").data := by simpa using h4
            simp [h4', langFive]
          · rw [if_neg h4]
            by_cases h5 : (hintOr h (detectLanguage c) == ("python").data) = true
            · rw [if_pos h5]
              right
              have h5' : hintOr h (detectLanguage c) = ("python").data := by
                simpa using h5
              simp [h5', langFive]
            · rw [if_neg h5]
              by_cases d1 : (detectLanguage c == ("json").data) = true
              · rw [if_pos d1]
                right
                have d1' : detectLanguage c = ("json").data := by simpa using d1
                simp [d1', langFive]
              · rw [if_neg d1]
                by_cases d2 : (detectLanguage c == ("yaml").data) = true
                · rw [if_pos d2]
                  right
                  have d2' : detectLanguage c = ("yaml").data := by simpa using d2
                  simp [d2', langFive]
                · rw [if_neg d2]
                  by_cases d3 : (detectLanguage c == ("bash").data) = true
                  · rw [if_pos d3]
                    right
                    have d3' : detectLanguage c = ("bash").data := by simpa using d3
                    simp [d3', langFive]
                  · rw [if_neg d3]
                    by_cases d4 : (detectLanguage c == ("go").data) = true
                    · rw [if_pos d4]
                      right
                      have d4' : detectLanguage c = ("go").data := by simpa using d4
                      simp [d4', langFive]
                    · rw [if_neg d4]
                      by_cases d5 : (detectLanguage c == ("python").data) = true
                      · rw [if_pos d5]
                        right
                        have d5' : detectLanguage c = ("python").data := by simpa using d5
                        simp [d5', langFive]
                      · rw [if_neg d5]
                        left
                        rfl
  · intro hd
    rw [formatCodeBlock_false]
    unfold stdFormat stdDispatch
    rw [show hintOr none (detectLanguage c) = detectLanguage c from rfl, hd]
    rw [if_neg (by decide), if_neg (by decide), if_neg (by decide), if_neg (by decide),
      if_neg (by decide)]
    rw [if_neg (by decide), if_neg (by decide), if_neg (by decide), if_neg (by decide),
      if_neg (by decide)]

/-- Witness for C2: undetectable content with no hint returns unchanged as
"text". -/
theorem format_block_safety_witness :
    formatCodeBlock false true ("just some words").data none
      = (("just some words").data, ("text").data) :=
  (format_block_safety ("just some words").data none).2 (by decide)

/-! ## C8: the nesting level never goes negative -/

/-- The successive nesting levels of the bash state machine. -/
def bashTrace (lvl : Int) : List Str → List Int
  | [] => []
  | l :: ls => (bashStep lvl l).2 :: bashTrace (bashStep lvl l).2 ls

/-- The successive nesting levels of the go state machine. -/
def goTrace (lvl : Int) : List Str → List Int
  | [] => []
  | l :: ls => (goStep lvl l).2 :: goTrace (goStep lvl l).2 ls

/-- The successive nesting levels of the python state machine. -/
def pythonTrace (lvl : Int) : List Str → List Int
  | [] => []
  | l :: ls => (pythonStep lvl l).2 :: pythonTrace (pythonStep lvl l).2 ls

/-- One bash step preserves nonnegativity of the level. -/
theorem bashStep_nonneg (lvl : Int) (l : Str) (h : 0 ≤ lvl) :
    0 ≤ (bashStep lvl l).2 := by
  unfold bashStep bashStepCore
  split_ifs <;> simp <;> omega

/-- One go step preserves nonnegativity of the level. -/
theorem goStep_nonneg (lvl : Int) (l : Str) (h : 0 ≤ lvl) :
    0 ≤ (goStep lvl l).2 := by
  unfold goStep goStepCore
  split_ifs <;> simp <;> omega

/-- One python step preserves nonnegativity of the level. -/
theorem pythonStep_nonneg (lvl : Int) (l : Str) (h : 0 ≤ lvl) :
    0 ≤ (pythonStep lvl l).2 := by
  unfold pythonStep pythonStepCore pythonLvl1
  split_ifs <;> simp <;> omega

/-- Every line of a bash step is empty or a nonnegative indent followed by
line content. -/
theorem bashStep_render (lvl : Int) (l : Str) (h : 0 ≤ lvl) :
    ∃ t : Int, 0 ≤ t
      ∧ ((bashStep lvl l).1 = []
        ∨ (bashStep lvl l).1 = bashIndent t ++ pyStrip l
        ∨ (bashStep lvl l).1 = bashIndent t ++ bashVarSub (pyStrip l)) := by
  unfold bashStep bashStepCore
  split_ifs <;>
    first
      | exact ⟨lvl, h, Or.inl rfl⟩
      | exact ⟨lvl, h, Or.inr (Or.inl rfl)⟩
      | exact ⟨lvl, h, Or.inr (Or.inr rfl)⟩
      | exact ⟨max 0 (lvl - 1), le_max_left 0 _, Or.inr (Or.inr rfl)⟩

/-- Every line of a go step is empty or a nonnegative indent followed by
the stripped line. -/
theorem goStep_render (lvl : Int) (l : Str) (h : 0 ≤ lvl) :
    ∃ t : Int, 0 ≤ t
      ∧ ((goStep lvl l).1 = [] ∨ (goStep lvl l).1 = goIndent t ++ pyStrip l) := by
  unfold goStep goStepCore
  split_ifs <;>
    first
      | exact ⟨lvl, h, Or.inl rfl⟩
      | exact ⟨lvl, h, Or.inr rfl⟩
      | exact ⟨max 0 (lvl - 1), le_max_left 0 _, Or.inr rfl⟩

/-- Every line of a python step is empty or a nonnegative indent followed
by the stripped line. -/
theorem pythonStep_render (lvl : Int) (l : Str) (h : 0 ≤ lvl) :
    ∃ t : Int, 0 ≤ t
      ∧ ((pythonStep lvl l).1 = [] ∨ (pythonStep lvl l).1 = pyIndent t ++ pyStrip l) := by
  unfold pythonStep pythonStepCore pythonLvl1
  split_ifs <;>
    first
      | exact ⟨lvl, h, Or.inl rfl⟩
      | exact ⟨lvl, h, Or.inr rfl⟩
      | exact ⟨max 0 (lvl - 1), le_max_left 0 _, Or.inr rfl⟩

/-- Claim C8: in each structural formatter's state machine (bash, go,
python), starting from a nonnegative level every decrement is clamped at
zero, so the level is nonnegative at every step of processing every input,
and every rendered line carries a nonnegative indentation. -/
theorem nesting_level_never_negative :
    (∀ ls (lvl : Int), 0 ≤ lvl → ∀ x ∈ bashTrace lvl ls, 0 ≤ x)
    ∧ (∀ ls (lvl : Int), 0 ≤ lvl → ∀ x ∈ goTrace lvl ls, 0 ≤ x)
    ∧ (∀ ls (lvl : Int), 0 ≤ lvl → ∀ x ∈ pythonTrace lvl ls, 0 ≤ x)
    ∧ (∀ (lvl : Int) l, 0 ≤ lvl → ∃ t : Int, 0 ≤ t
        ∧ ((bashStep lvl l).1 = []
          ∨ (bashStep lvl l).1 = bashIndent t ++ pyStrip l
          ∨ (bashStep lvl l).1 = bashIndent t ++ bashVarSub (pyStrip l)))
    ∧ (∀ (lvl : Int) l, 0 ≤ lvl → ∃ t : Int, 0 ≤ t
        ∧ ((goStep lvl l).1 = [] ∨ (goStep lvl l).1 = goIndent t ++ pyStrip l))
    ∧ (∀ (lvl : Int) l, 0 ≤ lvl → ∃ t : Int, 0 ≤ t
        ∧ ((pythonStep lvl l).1 = []
          ∨ (pythonStep lvl l).1 = pyIndent t ++ pyStrip l)) := by
  refine ⟨?_, ?_, ?_, fun lvl l h => bashStep_render lvl l h,
    fun lvl l h => goStep_render lvl l h, fun lvl l h => pythonStep_render lvl l h⟩
  · intro ls
    induction ls with
    | nil => intro lvl _ x hx; simp [bashTrace] at hx
    | cons l ls ih =>
      intro lvl hlvl x hx
      rw [bashTrace] at hx
      rcases List.mem_cons.mp hx with hx | hx
      · subst hx; exact bashStep_nonneg lvl l hlvl
      · exact ih _ (bashStep_nonneg lvl l hlvl) x hx
  · intro ls
    induction ls with
    | nil => intro lvl _ x hx; simp [goTrace] at hx
    | cons l ls ih =>
      intro lvl hlvl x hx
      rw [goTrace] at hx
      rcases List.mem_cons.mp hx with hx | hx
      · subst hx; exact goStep_nonneg lvl l hlvl
      · exact ih _ (goStep_nonneg lvl l hlvl) x hx
  · intro ls
    induction ls with
    | nil => intro lvl _ x hx; simp [pythonTrace] at hx
    | cons l ls ih =>
      intro lvl hlvl x hx
      rw [pythonTrace] at hx
      rcases List.mem_cons.mp hx with hx | hx
      · subst hx; exact pythonStep_nonneg lvl l hlvl
      · exact ih _ (pythonStep_nonneg lvl l hlvl) x hx

/-- Witness for C8: a bash script that tries to dedent past zero still
traces only nonnegative levels from the initial zero. -/
theorem nesting_level_never_negative_witness :
    (∀ x ∈ bashTrace 0 (splitLines ("fi\nfi\ndone\nif a; then").data), 0 ≤ x)
    ∧ (∀ x ∈ goTrace 0 (splitLines ("\x7d\n\x7d\nfunc f() \x7b").data), 0 ≤ x)
    ∧ (∀ x ∈ pythonTrace 0 (splitLines ("else:\nreturn\n)").data), 0 ≤ x) :=
  ⟨nesting_level_never_negative.1 _ 0 (by decide),
   nesting_level_never_negative.2.1 _ 0 (by decide),
   nesting_level_never_negative.2.2.1 _ 0 (by decide)⟩

/-! ## Character-class helper lemmas -/

/-- An identifier head character is not whitespace. -/
theorem alphaUnder_not_space {c : Char} (h : alphaUnder c = true) :
    pySpace c = false := by
  rw [Bool.eq_false_iff]
  intro hs
  have hc : ((((c = ' ' ∨ c = '\t') ∨ c = '\n') ∨ c = '\r') ∨ c = '\x0b') ∨ c = '\x0c' := by
    simpa [pySpace] using hs
  rcases hc with ⟨⟨⟨⟨rfl | rfl⟩ | rfl⟩ | rfl⟩ | rfl⟩ | rfl <;> exact absurd h (by decide)

/-- An identifier head character is not a dash. -/
theorem alphaUnder_ne_dash {c : Char} (h : alphaUnder c = true) :
    (c == '-') = false := by
  rw [Bool.eq_false_iff]
  intro hs
  have : c = '-' := by simpa using hs
  subst this
  exact absurd h (by decide)

/-- Right strip keeps a non-whitespace head. -/
theorem pyRStrip_cons_ne {c : Char} {t : Str} (h : pySpace c = false) :
    pyRStrip (c :: t) ≠ [] := by
  intro he
  unfold pyRStrip at he
  rw [List.reverse_eq_nil_iff] at he
  have := List.dropWhile_eq_nil_iff.mp he c (by simp)
  rw [h] at this
  exact Bool.false_ne_true this

/-- Stripping a line that is one space then a non-whitespace character is
nonempty. -/
theorem pyStrip_space_cons {c : Char} {t : Str} (h : pySpace c = false) :
    (pyStrip (' ' :: c :: t) == []) = false := by
  have e : pyStrip (' ' :: c :: t) = pyRStrip (c :: t) := by
    unfold pyStrip pyLStrip
    rw [List.dropWhile_cons_of_pos (by decide), List.dropWhile_cons_of_neg (by simp [h])]
  rw [e]
  simpa using pyRStrip_cons_ne h

/-- Successful prefix tests destructure the string. -/
theorem strStarts_cons_iff {a : Char} {p s : Str} :
    strStarts (a :: p) s = true ↔ ∃ t, s = a :: t ∧ strStarts p t = true := by
  cases s with
  | nil => simp [strStarts]
  | cons c t =>
    simp only [strStarts, Bool.and_eq_true, beq_iff_eq]
    constructor
    · rintro ⟨rfl, h⟩; exact ⟨t, rfl, h⟩
    · rintro ⟨t2, he, h⟩
      cases he
      exact ⟨rfl, h⟩

/-! ## C6: the property-indent table repair -/

/-- A successful prefix test splits the string. -/
theorem strStarts_eq_append {p s : Str} (h : strStarts p s = true) :
    ∃ r, s = p ++ r := by
  induction p generalizing s with
  | nil => exact ⟨s, rfl⟩
  | cons a p ih =>
    obtain ⟨t, rfl, ht⟩ := strStarts_cons_iff.mp h
    obtain ⟨r, rfl⟩ := ih ht
    exact ⟨r, rfl⟩

/-- Destructuring a successful single-space property match. -/
theorem singleSpaceMatch_shape {l rest : Str} (h : singleSpaceMatch l = some rest) :
    ∃ c t, l = ' ' :: c :: t ∧ rest = c :: t ∧ alphaUnder c = true := by
  unfold singleSpaceMatch at h
  split at h
  next a c t =>
    split_ifs at h with hac
    obtain ⟨ha, hc⟩ := Bool.and_eq_true_iff.mp hac
    have ha2 : a = ' ' := by simpa using ha
    subst ha2
    split at h
    next d r hdr =>
      split_ifs at h with hd
      exact ⟨c, t, rfl, by injection h with h2; exact h2.symm, hc⟩
    next => exact absurd h (by simp)
  next => exact absurd h (by simp)

/-- The list-item pattern cannot fire on an identifier head. -/
theorem matchListItem_none_of_alpha {c : Char} {t : Str} (hc : alphaUnder c = true) :
    matchListItem (' ' :: c :: t) = none := by
  cases t with
  | nil => rfl
  | cons d t2 =>
    have hcd := alphaUnder_ne_dash hc
    simp [matchListItem, hcd]

/-- The single-space property repair renders the table indentation. -/
theorem fixYamlLine_singleSpace {l rest : Str} (h : singleSpaceMatch l = some rest) :
    fixYamlLine l = spaces (propIndent (propName rest)) ++ rest := by
  obtain ⟨c, t, rfl, rfl, hc⟩ := singleSpaceMatch_shape h
  have hne := pyStrip_space_cons (t := t) (alphaUnder_not_space hc)
  have hli := matchListItem_none_of_alpha (t := t) hc
  simp only [fixYamlLine, hne, Bool.false_eq_true, if_false, hli, h]

/-- Claim C6: the per-line repair of a one-space `identifier: value` line
re-indents by the PropertyIndentTable — name, namespace, selector,
unhealthyConditions and unknown identifiers to two spaces, matchLabels to
four, keys under the machine.openshift.io domain prefix to six, timeout and type to
four; in particular the raw non-fenced line " timeout: 8m" becomes
"    timeout: 8m" under `repair_document`, and the fenced yaml line
" name: foo" becomes "  name: foo". -/
theorem property_indent_table_repair :
    (∀ l rest, singleSpaceMatch l = some rest →
      fixYamlLine l = spaces (propIndent (propName rest)) ++ rest)
    ∧ propIndent (("name").data) = 2 ∧ propIndent (("namespace").data) = 2
    ∧ propIndent (("selector").data) = 2
    ∧ propIndent (("unhealthyConditions").data) = 2
    ∧ propIndent (("matchLabels").data) = 4
    ∧ (∀ p, strStarts (("machine.openshift.io/").data) p = true → propIndent p = 6)
    ∧ propIndent (("timeout").data) = 4 ∧ propIndent (("type").data) = 4
    ∧ (∀ p, p ≠ ("name").data → p ≠ ("namespace").data → p ≠ ("maxUnhealthy").data →
        p ≠ ("nodeStartupTimeout").data → p ≠ ("selector").data →
        p ≠ ("unhealthyConditions").data → p ≠ ("matchLabels").data →
        strStarts (("machine.openshift.io/").data) p = false →
        p ≠ ("timeout").data → p ≠ ("type").data → propIndent p = 2)
    ∧ cleanMarkerOutput ((" timeout: 8m").data) = (("    timeout: 8m").data)
    ∧ cleanMarkerOutput (("```yaml\n name: foo\n```").data)
        = (("```yaml\n  name: foo\n```").data) := by
  refine ⟨fun l rest h => fixYamlLine_singleSpace h, by decide, by decide, by decide,
    by decide, by decide, ?_, by decide, by decide, ?_, by decide, by decide⟩
  · intro p hp
    obtain ⟨t1, rfl, hp1⟩ := strStarts_cons_iff.mp hp
    obtain ⟨t2, rfl, hp2⟩ := strStarts_cons_iff.mp hp1
    obtain ⟨t3, rfl, hp3⟩ := strStarts_cons_iff.mp hp2
    have e1 : (('m' :: 'a' :: 'c' :: t3 : Str) == ("name").data
        || ('m' :: 'a' :: 'c' :: t3 : Str) == ("namespace").data) = false := rfl
    have e2 : (('m' :: 'a' :: 'c' :: t3 : Str) == ("maxUnhealthy").data
        || ('m' :: 'a' :: 'c' :: t3 : Str) == ("nodeStartupTimeout").data
        || ('m' :: 'a' :: 'c' :: t3 : Str) == ("selector").data
        || ('m' :: 'a' :: 'c' :: t3 : Str) == ("unhealthyConditions").data) = false := rfl
    have e3 : (('m' :: 'a' :: 'c' :: t3 : Str) == ("matchLabels").data) = false := rfl
    unfold propIndent
    rw [if_neg (by simp [e1]), if_neg (by simp [e2]), if_neg (by simp [e3]), if_pos hp]
  · intro p h1 h2 h3 h4 h5 h6 h7 h8 h9 h10
    unfold propIndent
    rw [if_neg (by simp [h1, h2]), if_neg (by simp [h3, h4, h5, h6]),
      if_neg (by simp [h7]), if_neg (by simp [h8]), if_neg (by simp [h9, h10])]

/-- Witness for C6: the one-space line " name: foo" is repaired through the
table to two leading spaces. -/
theorem property_indent_table_repair_witness :
    fixYamlLine ((" name: foo").data) = (("  name: foo").data) :=
  (property_indent_table_repair.1 _ (("name: foo").data) (by decide)).trans (by decide)

/-! ## C10: the raw (non-fenced) pass has a narrow frame -/

/-- A timeout/type continuation match is subsumed by the single-space
property pattern. -/
theorem listContMatch_isSome_singleSpace {l : Str} {x : Str × Str}
    (h : listContMatch l = some x) : (singleSpaceMatch l).isSome = true := by
  unfold listContMatch at h
  split at h
  next a t =>
    split_ifs at h with ha h1 h2
    · have ha2 : a = ' ' := by simpa using ha
      subst ha2
      obtain ⟨r, rfl⟩ := strStarts_eq_append h1
      rfl
    · have ha2 : a = ' ' := by simpa using ha
      subst ha2
      obtain ⟨r, rfl⟩ := strStarts_eq_append h2
      rfl
  next => exact absurd h (by simp)

/-- A machine.openshift.io line without a single-space property match is
left unchanged by the per-line repair. -/
theorem fixYamlLine_machine_id {t : Str}
    (hm : strStarts (("machine.openshift.io/").data) t = true)
    (hnone : singleSpaceMatch (' ' :: t) = none) :
    fixYamlLine (' ' :: t) = ' ' :: t := by
  obtain ⟨t1, rfl, hm1⟩ := strStarts_cons_iff.mp hm
  have hne := pyStrip_space_cons (c := 'm') (t := t1) (by decide)
  have hli : matchListItem (' ' :: 'm' :: t1) = none := by
    cases t1 with
    | nil => rfl
    | cons d t2 => rfl
  have hyp : yamlPropMatch (' ' :: 'm' :: t1) = none := by
    unfold yamlPropMatch
    rw [show List.dropWhile pySpace (' ' :: 'm' :: t1) = 'm' :: t1 from rfl]
    cases t1 with
    | nil => rfl
    | cons d t2 => rfl
  have hdd : doubleDashMatch (' ' :: 'm' :: t1) = none := by
    unfold doubleDashMatch
    rw [show List.dropWhile pySpace (' ' :: 'm' :: t1) = 'm' :: t1 from rfl]
    cases t1 with
    | nil => rfl
    | cons d t2 => rfl
  have hlc : listContMatch (' ' :: 'm' :: t1) = none := rfl
  have hcm : contMatch (' ' :: 'm' :: t1) = none := by
    unfold contMatch
    rw [show List.dropWhile pySpace (' ' :: 'm' :: t1) = 'm' :: t1 from rfl]
    cases t1 with
    | nil => rfl
    | cons d t2 => rfl
  simp only [fixYamlLine, hne, Bool.false_eq_true, if_false, hli, hnone, hyp, hdd,
    hlc, hcm]

/-- A line without a single-space property match passes through the raw
pass unchanged. -/
theorem rawFix_id_of_none {l : Str} (hnone : singleSpaceMatch l = none) :
    rawFix l = l := by
  unfold rawFix
  by_cases hy : isYamlLikeLine l = true
  · rw [if_pos hy]
    unfold isYamlLikeLine at hy
    split_ifs at hy with hse
    rcases Bool.or_eq_true_iff.mp hy with hy1 | hy2
    · rcases Bool.or_eq_true_iff.mp hy1 with hssm | hmach
      · rw [hnone] at hssm
        exact absurd hssm (by simp)
      · unfold machineLineMatch at hmach
        split at hmach
        next a t =>
          obtain ⟨ha, hm⟩ := Bool.and_eq_true_iff.mp hmach
          have ha2 : a = ' ' := by simpa using ha
          subst ha2
          exact fixYamlLine_machine_id hm hnone
        next => exact absurd hmach (by simp)
    · cases hlc : listContMatch l with
      | none => rw [hlc] at hy2; exact absurd hy2 (by simp)
      | some x =>
        have hsx := listContMatch_isSome_singleSpace hlc
        rw [hnone] at hsx
        exact absurd hsx (by simp)
  · rw [if_neg hy]

/-- Claim C10: the raw-document pass is exactly the per-line map of
`rawFix` over the document's lines, and `rawFix` modifies a line only when
the line starts with exactly one leading space followed by an identifier
(dots and slashes allowed) and a colon — every other line, including
zero-space, two-or-more-space and one-space list-item lines, is emitted
unchanged. -/
theorem raw_pass_frame :
    (∀ doc, cleanRawYaml doc = joinLines ((splitLines doc).map rawFix))
    ∧ (∀ l, singleSpaceMatch l = none → rawFix l = l) :=
  ⟨fun _ => rfl, fun _ hnone => rawFix_id_of_none hnone⟩

/-- Witness for C10 at concrete lines: a one-space list item, a zero-space
property line and a deeper-indented line all pass through unchanged. -/
theorem raw_pass_frame_witness :
    rawFix ((" - x").data) = ((" - x").data)
    ∧ rawFix (("name: foo").data) = (("name: foo").data)
    ∧ rawFix (("  timeout: 8m").data) = (("  timeout: 8m").data) :=
  ⟨raw_pass_frame.2 _ (by decide), raw_pass_frame.2 _ (by decide),
   raw_pass_frame.2 _ (by decide)⟩

/-! ## C1: idempotence of the repair pass

The repair pass is not idempotent in general: repairing a one-space list
item " - a: b" inside a fenced yaml block yields "  - a: b", which the
next application matches with the dashed-property pattern and rewrites
again. The amended statement proved below: the raw pass is idempotent on
all inputs, and the whole pass is idempotent on documents without
dash-led lines. -/

/-- Every table indentation is at least two. -/
theorem propIndent_two_le (p : Str) : 2 ≤ propIndent p := by
  unfold propIndent
  split_ifs <;> omega

/-- The single-space pattern rejects a line with two leading spaces. -/
theorem singleSpaceMatch_two_spaces (r : Str) :
    singleSpaceMatch (' ' :: ' ' :: r) = none := rfl

/-- Peeling two spaces off a space run. -/
theorem spaces_succ_succ (n : Nat) : spaces (n + 2) = ' ' :: ' ' :: spaces n := by
  show List.replicate (n + 2) ' ' = ' ' :: ' ' :: List.replicate n ' '
  rw [show n + 2 = 2 + n by omega, List.replicate_add]
  rfl

/-- A space run is transparent to whitespace stripping. -/
theorem dropWhile_spaces (n : Nat) (x : Str) :
    (spaces n ++ x).dropWhile pySpace = x.dropWhile pySpace := by
  induction n with
  | zero => rfl
  | succ m ih =>
    show (List.replicate (m + 1) ' ' ++ x).dropWhile pySpace = _
    rw [List.replicate_succ, List.cons_append, List.dropWhile_cons_of_pos (by decide)]
    exact ih

/-- dropWhile over an appended non-matching singleton. -/
theorem dropWhile_append_single {p : Char → Bool} {c : Char} (h : p c = false) (l : Str) :
    (l ++ [c]).dropWhile p = l.dropWhile p ++ [c] := by
  induction l with
  | nil =>
    rw [List.nil_append, List.dropWhile_cons_of_neg (by simp [h])]
    rfl
  | cons a as ih =>
    by_cases hp : p a = true
    · rw [List.cons_append, List.dropWhile_cons_of_pos hp, List.dropWhile_cons_of_pos hp, ih]
    · rw [List.cons_append, List.dropWhile_cons_of_neg hp, List.dropWhile_cons_of_neg hp,
        List.cons_append]

/-- Right strip preserves a non-whitespace head. -/
theorem pyRStrip_cons_head {c : Char} (t : Str) (h : pySpace c = false) :
    pyRStrip (c :: t) = c :: pyRStrip t := by
  unfold pyRStrip
  rw [List.reverse_cons, dropWhile_append_single h, List.reverse_append]
  simp

/-- Stripping a space run followed by a non-whitespace head. -/
theorem pyStrip_spaces_cons {c : Char} (n : Nat) (t : Str) (h : pySpace c = false) :
    pyStrip (spaces n ++ c :: t) = c :: pyRStrip t := by
  unfold pyStrip pyLStrip
  rw [dropWhile_spaces, List.dropWhile_cons_of_neg (by simp [h]), pyRStrip_cons_head t h]

/-- A line of spaces then a non-dash head has no leading dash. -/
theorem noDashLine_spaces_cons {c : Char} (n : Nat) (t : Str) (h : pySpace c = false)
    (hc : (c == '-') = false) : noDashLine (spaces n ++ c :: t) = true := by
  have e : noDashLine (spaces n ++ c :: t) = !(c == '-') := by
    unfold noDashLine
    rw [dropWhile_spaces, List.dropWhile_cons_of_neg (by simp [h])]
  rw [e, hc]
  rfl

/-- An identifier head character is not a backtick. -/
theorem alphaUnder_ne_backtick {c : Char} (h : alphaUnder c = true) :
    (c == '`') = false := by
  rw [Bool.eq_false_iff]
  intro hs
  have : c = '`' := by simpa using hs
  subst this
  exact absurd h (by decide)

/-- A prefix test fails on mismatched heads. -/
theorem strStarts_head_false {a c : Char} {p s : Str} (h : (a == c) = false) :
    strStarts (a :: p) (c :: s) = false := by
  simp only [strStarts, h, Bool.false_and]

/-- List equality tests fail on mismatched heads. -/
theorem cons_beq_head_false {a c : Char} {x y : Str} (h : (a == c) = false) :
    ((a :: x : Str) == c :: y) = false := by
  rw [beq_eq_false_iff_ne]
  intro he
  injection he with h1 h2
  exact (beq_eq_false_iff_ne.mp h) h1

/-- An indented identifier-headed line is neither a yaml fence opener nor a closing fence. -/
theorem spaces_alpha_not_fence {c : Char} (k : Nat) (t : Str) (hc : alphaUnder c = true) :
    isYamlFenceOpen (spaces k ++ c :: t) = false
    ∧ (pyStrip (spaces k ++ c :: t) == ("```").data) = false := by
  have hsp := alphaUnder_not_space hc
  have hps : pyStrip (spaces k ++ c :: t) = c :: pyRStrip t := pyStrip_spaces_cons k t hsp
  have hne : c ≠ '`' := beq_eq_false_iff_ne.mp (alphaUnder_ne_backtick hc)
  have hcb : ('`' == c) = false := beq_eq_false_iff_ne.mpr (Ne.symm hne)
  constructor
  · unfold isYamlFenceOpen
    rw [hps, show ("```yaml").data = '`' :: ("``yaml").data from rfl,
      show ("```yml").data = '`' :: ("``yml").data from rfl,
      strStarts_head_false hcb, strStarts_head_false hcb]
    rfl
  · rw [hps, show ("```").data = '`' :: ("``").data from rfl]
    exact cons_beq_head_false (alphaUnder_ne_backtick hc)

/-- A line of two or more spaces then an identifier head neither matches the single-space pattern nor starts with a dash. -/
theorem spaces_two_alpha_props {c : Char} {k : Nat} (t : Str) (h2 : 2 ≤ k)
    (hc : alphaUnder c = true) :
    singleSpaceMatch (spaces k ++ c :: t) = none
    ∧ noDashLine (spaces k ++ c :: t) = true := by
  refine ⟨?_, noDashLine_spaces_cons k t (alphaUnder_not_space hc) (alphaUnder_ne_dash hc)⟩
  obtain ⟨m, rfl⟩ : ∃ m, k = m + 2 := ⟨k - 2, by omega⟩
  rw [spaces_succ_succ, List.cons_append, List.cons_append]
  exact singleSpaceMatch_two_spaces _

/-- The first character after the leading whitespace of a no-dash line is not a dash. -/
theorem noDashLine_head {l : Str} {b : Char} {rest : Str} (hnd : noDashLine l = true)
    (hdw : l.dropWhile pySpace = b :: rest) : (b == '-') = false := by
  unfold noDashLine at hnd
  rw [hdw] at hnd
  simpa using hnd

/-- The list-item pattern cannot fire on a no-dash line. -/
theorem matchListItem_none_of_noDash {l : Str} (hnd : noDashLine l = true) :
    matchListItem l = none := by
  cases l with
  | nil => rfl
  | cons a t0 =>
    cases t0 with
    | nil => rfl
    | cons b t1 =>
      cases t1 with
      | nil => rfl
      | cons c t =>
        simp only [matchListItem]
        have hcond : ((a == ' ') && (b == '-') && pySpace c) = false := by
          by_cases ha : a = ' '
          · subst ha
            by_cases hb : b = '-'
            · subst hb
              have he : noDashLine (' ' :: '-' :: c :: t) = false := rfl
              rw [he] at hnd
              exact absurd hnd (by simp)
            · simp [beq_eq_false_iff_ne.mpr hb]
          · simp [beq_eq_false_iff_ne.mpr ha]
        rw [hcond]
        rfl

/-- The dashed-property pattern cannot fire on a no-dash line. -/
theorem yamlPropMatch_none_of_noDash {l : Str} (hnd : noDashLine l = true) :
    yamlPropMatch l = none := by
  unfold yamlPropMatch
  cases hdw : l.dropWhile pySpace with
  | nil => rfl
  | cons b rest =>
    cases rest with
    | nil => rfl
    | cons c t =>
      have hb := noDashLine_head hnd hdw
      simp [hb]

/-- The double-dash pattern cannot fire on a no-dash line. -/
theorem doubleDashMatch_none_of_noDash {l : Str} (hnd : noDashLine l = true) :
    doubleDashMatch l = none := by
  unfold doubleDashMatch
  cases hdw : l.dropWhile pySpace with
  | nil => rfl
  | cons b rest =>
    cases rest with
    | nil => rfl
    | cons c t =>
      have hb := noDashLine_head hnd hdw
      simp [hb]

/-- The list-continuation-value pattern cannot fire on a no-dash line. -/
theorem contMatch_none_of_noDash {l : Str} (hnd : noDashLine l = true) :
    contMatch l = none := by
  unfold contMatch
  cases hdw : l.dropWhile pySpace with
  | nil => rfl
  | cons b rest =>
    cases rest with
    | nil => rfl
    | cons c t =>
      have hb := noDashLine_head hnd hdw
      simp [hb]

/-- The timeout-or-type pattern is subsumed by the single-space pattern. -/
theorem listContMatch_none_of_ssm {l : Str} (hn : singleSpaceMatch l = none) :
    listContMatch l = none := by
  cases hlc : listContMatch l with
  | none => rfl
  | some x =>
    have hs := listContMatch_isSome_singleSpace hlc
    rw [hn] at hs
    exact absurd hs (by simp)

/-- On a no-dash line the per-line repair acts only through the single-space pattern. -/
theorem fixYamlLine_id_of_noDash {l : Str} (hnd : noDashLine l = true)
    (hnone : singleSpaceMatch l = none) : fixYamlLine l = l := by
  cases hse : (pyStrip l == []) with
  | true =>
    unfold fixYamlLine
    rw [if_pos hse]
  | false =>
    have hli := matchListItem_none_of_noDash hnd
    have hyp := yamlPropMatch_none_of_noDash hnd
    have hdd := doubleDashMatch_none_of_noDash hnd
    have hlc := listContMatch_none_of_ssm hnone
    have hcm := contMatch_none_of_noDash hnd
    simp only [fixYamlLine, hse, Bool.false_eq_true, if_false, hli, hnone, hyp, hdd,
      hlc, hcm]

/-- The per-line repair is idempotent on no-dash lines. -/
theorem fixYamlLine_idem_of_noDash {l : Str} (hnd : noDashLine l = true) :
    fixYamlLine (fixYamlLine l) = fixYamlLine l := by
  cases hssm : singleSpaceMatch l with
  | none => rw [fixYamlLine_id_of_noDash hnd hssm, fixYamlLine_id_of_noDash hnd hssm]
  | some rest =>
    obtain ⟨c, t, hl, hr, hc⟩ := singleSpaceMatch_shape hssm
    subst hl; subst hr
    rw [fixYamlLine_singleSpace hssm]
    have hp := spaces_two_alpha_props (c := c) (k := propIndent (propName (c :: t))) t
      (propIndent_two_le _) hc
    exact fixYamlLine_id_of_noDash hp.2 hp.1

/-- On a no-dash line the repair preserves fence-opener and fence-closer classification and the no-dash property. -/
theorem fixYamlLine_class_of_noDash {l : Str} (hnd : noDashLine l = true) :
    isYamlFenceOpen (fixYamlLine l) = isYamlFenceOpen l
    ∧ (pyStrip (fixYamlLine l) == ("```").data) = (pyStrip l == ("```").data)
    ∧ noDashLine (fixYamlLine l) = true := by
  cases hssm : singleSpaceMatch l with
  | none =>
    rw [fixYamlLine_id_of_noDash hnd hssm]
    exact ⟨rfl, rfl, hnd⟩
  | some rest =>
    obtain ⟨c, t, hl, hr, hc⟩ := singleSpaceMatch_shape hssm
    subst hl; subst hr
    rw [fixYamlLine_singleSpace hssm]
    have hout := spaces_alpha_not_fence (propIndent (propName (c :: t))) t hc
    have hl1 := spaces_alpha_not_fence 1 t hc
    have hnd2 := spaces_two_alpha_props (c := c) (k := propIndent (propName (c :: t))) t
      (propIndent_two_le _) hc
    refine ⟨?_, ?_, hnd2.2⟩
    · rw [hout.1, show (' ' :: c :: t : Str) = spaces 1 ++ c :: t from rfl, hl1.1]
    · rw [hout.2, show (' ' :: c :: t : Str) = spaces 1 ++ c :: t from rfl, hl1.2]

/-- When the single-space pattern fires, the raw pass runs the full per-line repair. -/
theorem rawFix_ssm_some {l rest : Str} (h : singleSpaceMatch l = some rest) :
    rawFix l = fixYamlLine l := by
  obtain ⟨c, t, hl, hr, hc⟩ := singleSpaceMatch_shape h
  subst hl
  have hne := pyStrip_space_cons (t := t) (alphaUnder_not_space hc)
  have hy : isYamlLikeLine (' ' :: c :: t) = true := by
    simp [isYamlLikeLine, hne, h]
  unfold rawFix
  rw [if_pos hy]

/-- On no-dash lines the raw pass and the per-line repair agree. -/
theorem rawFix_eq_fix_of_noDash {l : Str} (hnd : noDashLine l = true) :
    rawFix l = fixYamlLine l := by
  cases hssm : singleSpaceMatch l with
  | none => rw [rawFix_id_of_none hssm, fixYamlLine_id_of_noDash hnd hssm]
  | some rest => exact rawFix_ssm_some hssm

/-- The raw per-line pass is idempotent on every line. -/
theorem rawFix_idem (l : Str) : rawFix (rawFix l) = rawFix l := by
  cases hssm : singleSpaceMatch l with
  | none => rw [rawFix_id_of_none hssm, rawFix_id_of_none hssm]
  | some rest =>
    obtain ⟨c, t, hl, hr, hc⟩ := singleSpaceMatch_shape hssm
    subst hl; subst hr
    rw [rawFix_ssm_some hssm, fixYamlLine_singleSpace hssm]
    have hp := spaces_two_alpha_props (c := c) (k := propIndent (propName (c :: t))) t
      (propIndent_two_le _) hc
    exact rawFix_id_of_none hp.1

/-- Members of an indented line are spaces or members of its tail. -/
theorem mem_spaces_append {c : Char} {k : Nat} {t : Str} {x : Char}
    (hx : x ∈ spaces k ++ c :: t) : x = ' ' ∨ x ∈ (c :: t : Str) := by
  rcases List.mem_append.mp hx with h1 | h2
  · exact Or.inl (List.eq_of_mem_replicate h1)
  · exact Or.inr h2

/-- The per-line repair of a no-dash line introduces no newline. -/
theorem fixYamlLine_nl_of_noDash {l : Str} (hnd : noDashLine l = true)
    (h : '\n' ∉ l) : '\n' ∉ fixYamlLine l := by
  cases hssm : singleSpaceMatch l with
  | none => rw [fixYamlLine_id_of_noDash hnd hssm]; exact h
  | some rest =>
    obtain ⟨c, t, hl, hr, hc⟩ := singleSpaceMatch_shape hssm
    subst hl; subst hr
    rw [fixYamlLine_singleSpace hssm]
    intro hm
    rcases mem_spaces_append hm with h1 | h2
    · exact absurd h1 (by decide)
    · exact h (List.mem_cons_of_mem ' ' h2)

/-- The raw per-line pass introduces no newline. -/
theorem rawFix_nl {l : Str} (h : '\n' ∉ l) : '\n' ∉ rawFix l := by
  cases hssm : singleSpaceMatch l with
  | none => rw [rawFix_id_of_none hssm]; exact h
  | some rest =>
    obtain ⟨c, t, hl, hr, hc⟩ := singleSpaceMatch_shape hssm
    subst hl; subst hr
    rw [rawFix_ssm_some hssm, fixYamlLine_singleSpace hssm]
    intro hm
    rcases mem_spaces_append hm with h1 | h2
    · exact absurd h1 (by decide)
    · exact h (List.mem_cons_of_mem ' ' h2)

/-- The cons unfolding of line splitting. -/
theorem splitLines_cons_eq {c : Char} {t h : Str} {r : List Str}
    (hst : splitLines t = h :: r) :
    splitLines (c :: t) = if c = '\n' then [] :: h :: r else (c :: h) :: r := by
  unfold splitLines
  rw [hst]

/-- Line splitting always yields at least one line. -/
theorem splitLines_ne_nil (s : Str) : splitLines s ≠ [] := by
  cases s with
  | nil => simp [splitLines]
  | cons c t =>
    unfold splitLines
    cases hst : splitLines t with
    | nil => simp
    | cons h r => by_cases hc : c = '\n' <;> simp [hc]

/-- Lines produced by splitting contain no newline. -/
theorem mem_splitLines_nl {s : Str} : ∀ l ∈ splitLines s, '\n' ∉ l := by
  induction s with
  | nil =>
    intro l hl
    simp only [splitLines, List.mem_singleton] at hl
    subst hl
    simp
  | cons c t ih =>
    intro l hl
    cases hst : splitLines t with
    | nil => exact absurd hst (splitLines_ne_nil t)
    | cons h r =>
      rw [splitLines_cons_eq hst] at hl
      by_cases hc : c = '\n'
      · rw [if_pos hc] at hl
        rcases List.mem_cons.mp hl with rfl | hl2
        · simp
        · exact ih l (by rw [hst]; exact hl2)
      · rw [if_neg hc] at hl
        rcases List.mem_cons.mp hl with rfl | hl2
        · intro hm
          rcases List.mem_cons.mp hm with he | hm2
          · exact hc he.symm
          · exact ih h (by rw [hst]; exact List.mem_cons_self h r) hm2
        · exact ih l (by rw [hst]; exact List.mem_cons_of_mem h hl2)

/-- A newline-free string splits into itself. -/
theorem splitLines_single {l : Str} (h : '\n' ∉ l) : splitLines l = [l] := by
  induction l with
  | nil => rfl
  | cons c t ih =>
    have hc : c ≠ '\n' := fun he => h (by rw [he]; exact List.mem_cons_self _ _)
    have ht : '\n' ∉ t := fun hm => h (List.mem_cons_of_mem c hm)
    rw [splitLines_cons_eq (ih ht), if_neg hc]

/-- Splitting distributes over a leading newline-free line. -/
theorem splitLines_append_nl {l s : Str} (h : '\n' ∉ l) :
    splitLines (l ++ '\n' :: s) = l :: splitLines s := by
  induction l with
  | nil =>
    show splitLines ('\n' :: s) = [] :: splitLines s
    cases hst : splitLines s with
    | nil => exact absurd hst (splitLines_ne_nil s)
    | cons h2 r => rw [splitLines_cons_eq hst, if_pos rfl]
  | cons c t ih =>
    have hc : c ≠ '\n' := fun he => h (by rw [he]; exact List.mem_cons_self _ _)
    have ht : '\n' ∉ t := fun hm => h (List.mem_cons_of_mem c hm)
    show splitLines (c :: (t ++ '\n' :: s)) = (c :: t) :: splitLines s
    rw [splitLines_cons_eq (ih ht), if_neg hc]

/-- Splitting inverts joining on nonempty newline-free line lists. -/
theorem splitLines_joinLines {ls : List Str} (hne : ls ≠ [])
    (hnl : ∀ l ∈ ls, '\n' ∉ l) : splitLines (joinLines ls) = ls := by
  induction ls with
  | nil => exact absurd rfl hne
  | cons l ls ih =>
    cases ls with
    | nil => exact splitLines_single (hnl l (List.mem_cons_self _ _))
    | cons l2 ls2 =>
      show splitLines (l ++ '\n' :: joinLines (l2 :: ls2)) = l :: l2 :: ls2
      rw [splitLines_append_nl (hnl l (List.mem_cons_self _ _)),
        ih (by simp) (fun x hx => hnl x (List.mem_cons_of_mem l hx))]

/-- The raw-document pass is idempotent on every input. -/
theorem cleanRawYaml_idem (d : Str) : cleanRawYaml (cleanRawYaml d) = cleanRawYaml d := by
  unfold cleanRawYaml
  have h1 : splitLines (joinLines ((splitLines d).map rawFix)) = (splitLines d).map rawFix := by
    apply splitLines_joinLines
    · intro he
      rw [List.map_eq_nil_iff] at he
      exact splitLines_ne_nil d he
    · intro l hl
      obtain ⟨x, hx, rfl⟩ := List.mem_map.mp hl
      exact rawFix_nl (mem_splitLines_nl x hx)
  rw [h1, List.map_map, show rawFix ∘ rawFix = rawFix from funext fun l => rawFix_idem l]

/-- Outside a yaml block, fence-free lines pass through the fence loop unchanged. -/
theorem cysGo_pass {xs : List Str} (h : ∀ x ∈ xs, isYamlFenceOpen x = false) :
    cysGo false [] xs = xs := by
  induction xs with
  | nil => rfl
  | cons x xs ih =>
    have hx := h x (List.mem_cons_self x xs)
    simp only [cysGo, hx, Bool.false_eq_true, if_false, Bool.and_false]
    rw [ih (fun y hy => h y (List.mem_cons_of_mem x hy))]

/-- The fence loop emits at least one line for a nonempty input. -/
theorem cysGo_false_ne_nil (buf : List Str) (l : Str) (ls : List Str) :
    cysGo false buf (l :: ls) ≠ [] := by
  simp only [cysGo, Bool.and_false, Bool.false_eq_true, if_false]
  by_cases ho : isYamlFenceOpen l = true
  · rw [if_pos ho]; simp
  · rw [if_neg ho]; simp

/-- Inside a yaml block, fence-free lines are moved into the buffer. -/
theorem cysGo_buffer (ys : List Str) : ∀ (xs buf : List Str),
    (∀ x ∈ xs, isYamlFenceOpen x = false ∧ (pyStrip x == ("```").data) = false) →
    cysGo true buf (xs ++ ys) = cysGo true (buf ++ xs) ys := by
  intro xs
  induction xs with
  | nil =>
    intro buf h
    rw [List.append_nil]
    rfl
  | cons x xs ih =>
    intro buf h
    obtain ⟨hx1, hx2⟩ := h x (List.mem_cons_self x xs)
    show cysGo true buf (x :: (xs ++ ys)) = cysGo true (buf ++ x :: xs) ys
    simp only [cysGo, hx1, hx2, Bool.false_eq_true, if_false, Bool.false_and, if_true]
    rw [ih (buf ++ [x]) (fun y hy => h y (List.mem_cons_of_mem x hy)), List.append_assoc,
      List.singleton_append]

/-- The fence loop preserves the no-dash and newline-free line invariants. -/
theorem cysGo_mem_nd_nl : ∀ (ls : List Str) (inY : Bool) (buf : List Str),
    (∀ l ∈ ls, noDashLine l = true ∧ '\n' ∉ l) →
    (∀ l ∈ buf, noDashLine l = true ∧ '\n' ∉ l) →
    ∀ x ∈ cysGo inY buf ls, noDashLine x = true ∧ '\n' ∉ x := by
  intro ls
  induction ls with
  | nil =>
    intro inY buf hls hbuf x hx
    obtain ⟨y, hy, rfl⟩ := List.mem_map.mp hx
    obtain ⟨hy1, hy2⟩ := hbuf y hy
    exact ⟨(fixYamlLine_class_of_noDash hy1).2.2, fixYamlLine_nl_of_noDash hy1 hy2⟩
  | cons l ls ih =>
    intro inY buf hls hbuf x hx
    have hl := hls l (List.mem_cons_self l ls)
    have hls2 := fun y hy => hls y (List.mem_cons_of_mem l hy)
    by_cases ho : isYamlFenceOpen l = true
    · rw [show cysGo inY buf (l :: ls) = l :: cysGo true buf ls from by
        simp only [cysGo]; rw [if_pos ho]] at hx
      rcases List.mem_cons.mp hx with rfl | hx2
      · exact hl
      · exact ih true buf hls2 hbuf x hx2
    · by_cases hcl : ((pyStrip l == ("```").data) && inY) = true
      · rw [show cysGo inY buf (l :: ls)
            = (buf.map fixYamlLine) ++ l :: cysGo false [] ls from by
          simp only [cysGo]; rw [if_neg ho, if_pos hcl]] at hx
        rcases List.mem_append.mp hx with hx1 | hx2
        · obtain ⟨y, hy, rfl⟩ := List.mem_map.mp hx1
          obtain ⟨hy1, hy2⟩ := hbuf y hy
          exact ⟨(fixYamlLine_class_of_noDash hy1).2.2, fixYamlLine_nl_of_noDash hy1 hy2⟩
        · rcases List.mem_cons.mp hx2 with rfl | hx3
          · exact hl
          · exact ih false [] hls2 (fun y hy => absurd hy (List.not_mem_nil y)) x hx3
      · cases inY with
        | true =>
          rw [show cysGo true buf (l :: ls) = cysGo true (buf ++ [l]) ls from by
            simp only [cysGo]; rw [if_neg ho, if_neg hcl, if_pos trivial]] at hx
          refine ih true (buf ++ [l]) hls2 ?_ x hx
          intro y hy
          rcases List.mem_append.mp hy with hy1 | hy2
          · exact hbuf y hy1
          · rw [List.mem_singleton] at hy2
            subst hy2
            exact hl
        | false =>
          rw [show cysGo false buf (l :: ls) = l :: cysGo false buf ls from by
            simp only [cysGo, Bool.and_false, Bool.false_eq_true, if_false]
            rw [if_neg ho]] at hx
          rcases List.mem_cons.mp hx with rfl | hx2
          · exact hl
          · exact ih false buf hls2 hbuf x hx2

/-- Re-running the fence loop on its own no-dash output changes nothing. -/
theorem cysGo_second_pass : ∀ (ls : List Str) (inY : Bool) (buf : List Str),
    (∀ l ∈ ls, noDashLine l = true) →
    (∀ l ∈ buf, noDashLine l = true ∧ isYamlFenceOpen l = false
      ∧ (pyStrip l == ("```").data) = false) →
    cysGo inY [] (cysGo inY buf ls) = cysGo inY buf ls := by
  intro ls
  induction ls with
  | nil =>
    intro inY buf hls hbuf
    show cysGo inY [] (buf.map fixYamlLine) = buf.map fixYamlLine
    have hbufF : ∀ x ∈ buf.map fixYamlLine, isYamlFenceOpen x = false
        ∧ (pyStrip x == ("```").data) = false := by
      intro x hx
      obtain ⟨y, hy, rfl⟩ := List.mem_map.mp hx
      obtain ⟨hy1, hy2, hy3⟩ := hbuf y hy
      have hc := fixYamlLine_class_of_noDash hy1
      exact ⟨hc.1.trans hy2, hc.2.1.trans hy3⟩
    have hidem : (buf.map fixYamlLine).map fixYamlLine = buf.map fixYamlLine := by
      rw [List.map_map]
      exact List.map_congr_left fun a ha => fixYamlLine_idem_of_noDash (hbuf a ha).1
    cases inY with
    | false => exact cysGo_pass fun x hx => (hbufF x hx).1
    | true =>
      have hb := cysGo_buffer [] (buf.map fixYamlLine) [] hbufF
      rw [List.append_nil, List.nil_append] at hb
      rw [hb]
      exact hidem
  | cons l ls ih =>
    intro inY buf hls hbuf
    have hl := hls l (List.mem_cons_self l ls)
    have hls2 := fun y hy => hls y (List.mem_cons_of_mem l hy)
    by_cases ho : isYamlFenceOpen l = true
    · rw [show cysGo inY buf (l :: ls) = l :: cysGo true buf ls from by
        simp only [cysGo]; rw [if_pos ho]]
      rw [show cysGo inY [] (l :: cysGo true buf ls)
          = l :: cysGo true [] (cysGo true buf ls) from by
        simp only [cysGo]; rw [if_pos ho]]
      rw [ih true buf hls2 hbuf]
    · by_cases hcl : ((pyStrip l == ("```").data) && inY) = true
      · obtain ⟨hc1, hc2⟩ := Bool.and_eq_true_iff.mp hcl
        subst hc2
        have hbufF : ∀ x ∈ buf.map fixYamlLine, isYamlFenceOpen x = false
            ∧ (pyStrip x == ("```").data) = false := by
          intro x hx
          obtain ⟨y, hy, rfl⟩ := List.mem_map.mp hx
          obtain ⟨hy1, hy2, hy3⟩ := hbuf y hy
          have hc := fixYamlLine_class_of_noDash hy1
          exact ⟨hc.1.trans hy2, hc.2.1.trans hy3⟩
        have hidem : (buf.map fixYamlLine).map fixYamlLine = buf.map fixYamlLine := by
          rw [List.map_map]
          exact List.map_congr_left fun a ha => fixYamlLine_idem_of_noDash (hbuf a ha).1
        rw [show cysGo true buf (l :: ls)
            = (buf.map fixYamlLine) ++ l :: cysGo false [] ls from by
          simp only [cysGo]; rw [if_neg ho, if_pos hcl]]
        rw [cysGo_buffer (l :: cysGo false [] ls) (buf.map fixYamlLine) [] hbufF,
          List.nil_append]
        rw [show cysGo true (buf.map fixYamlLine) (l :: cysGo false [] ls)
            = ((buf.map fixYamlLine).map fixYamlLine)
              ++ l :: cysGo false [] (cysGo false [] ls) from by
          simp only [cysGo]; rw [if_neg ho, if_pos hcl]]
        rw [ih false [] hls2 (fun y hy => absurd hy (List.not_mem_nil y)), hidem]
      · cases inY with
        | true =>
          have hc1 : (pyStrip l == ("```").data) = false := by simpa using hcl
          rw [show cysGo true buf (l :: ls) = cysGo true (buf ++ [l]) ls from by
            simp only [cysGo]; rw [if_neg ho, if_neg hcl, if_pos trivial]]
          refine ih true (buf ++ [l]) hls2 ?_
          intro y hy
          rcases List.mem_append.mp hy with hy1 | hy2
          · exact hbuf y hy1
          · rw [List.mem_singleton] at hy2
            subst hy2
            exact ⟨hl, Bool.eq_false_iff.mpr ho, hc1⟩
        | false =>
          rw [show cysGo false buf (l :: ls) = l :: cysGo false buf ls from by
            simp only [cysGo, Bool.and_false, Bool.false_eq_true, if_false]
            rw [if_neg ho]]
          rw [show cysGo false [] (l :: cysGo false buf ls)
              = l :: cysGo false [] (cysGo false buf ls) from by
            simp only [cysGo, Bool.and_false, Bool.false_eq_true, if_false]
            rw [if_neg ho]]
          rw [ih false buf hls2 hbuf]

/-- The fence loop commutes with the per-line repair map on no-dash lines. -/
theorem cysGo_map_fix : ∀ (ls : List Str) (inY : Bool) (buf : List Str),
    (∀ l ∈ ls, noDashLine l = true) →
    cysGo inY (buf.map fixYamlLine) (ls.map fixYamlLine)
      = (cysGo inY buf ls).map fixYamlLine := by
  intro ls
  induction ls with
  | nil =>
    intro inY buf hls
    rfl
  | cons l ls ih =>
    intro inY buf hls
    have hl := hls l (List.mem_cons_self l ls)
    have hls2 := fun y hy => hls y (List.mem_cons_of_mem l hy)
    have hcls := fixYamlLine_class_of_noDash hl
    rw [show (l :: ls).map fixYamlLine = fixYamlLine l :: ls.map fixYamlLine from rfl]
    by_cases ho : isYamlFenceOpen l = true
    · have hoF : isYamlFenceOpen (fixYamlLine l) = true := by rw [hcls.1]; exact ho
      rw [show cysGo inY (buf.map fixYamlLine) (fixYamlLine l :: ls.map fixYamlLine)
          = fixYamlLine l :: cysGo true (buf.map fixYamlLine) (ls.map fixYamlLine) from by
        simp only [cysGo]; rw [if_pos hoF]]
      rw [show cysGo inY buf (l :: ls) = l :: cysGo true buf ls from by
        simp only [cysGo]; rw [if_pos ho]]
      rw [show (l :: cysGo true buf ls).map fixYamlLine
          = fixYamlLine l :: (cysGo true buf ls).map fixYamlLine from rfl]
      rw [ih true buf hls2]
    · have hoF : ¬ isYamlFenceOpen (fixYamlLine l) = true := by rw [hcls.1]; exact ho
      by_cases hcl : ((pyStrip l == ("```").data) && inY) = true
      · obtain ⟨hc1, hc2⟩ := Bool.and_eq_true_iff.mp hcl
        subst hc2
        have hclF : ((pyStrip (fixYamlLine l) == ("```").data) && true) = true := by
          rw [hcls.2.1]
          exact hcl
        rw [show cysGo true (buf.map fixYamlLine) (fixYamlLine l :: ls.map fixYamlLine)
            = ((buf.map fixYamlLine).map fixYamlLine)
              ++ fixYamlLine l :: cysGo false [] (ls.map fixYamlLine) from by
          simp only [cysGo]; rw [if_neg hoF, if_pos hclF]]
        rw [show cysGo true buf (l :: ls)
            = (buf.map fixYamlLine) ++ l :: cysGo false [] ls from by
          simp only [cysGo]; rw [if_neg ho, if_pos hcl]]
        rw [List.map_append]
        rw [show (l :: cysGo false [] ls).map fixYamlLine
            = fixYamlLine l :: (cysGo false [] ls).map fixYamlLine from rfl]
        have hih := ih false [] hls2
        rw [List.map_nil] at hih
        rw [hih]
      · cases inY with
        | true =>
          have hc1 : (pyStrip l == ("```").data) = false := by simpa using hcl
          have hclF : ¬ ((pyStrip (fixYamlLine l) == ("```").data) && true) = true := by
            rw [hcls.2.1]
            exact hcl
          rw [show cysGo true (buf.map fixYamlLine) (fixYamlLine l :: ls.map fixYamlLine)
              = cysGo true (buf.map fixYamlLine ++ [fixYamlLine l]) (ls.map fixYamlLine)
            from by
            simp only [cysGo]; rw [if_neg hoF, if_neg hclF, if_pos trivial]]
          rw [show cysGo true buf (l :: ls) = cysGo true (buf ++ [l]) ls from by
            simp only [cysGo]; rw [if_neg ho, if_neg hcl, if_pos trivial]]
          rw [show buf.map fixYamlLine ++ [fixYamlLine l]
              = (buf ++ [l]).map fixYamlLine from by rw [List.map_append]; rfl]
          rw [ih true (buf ++ [l]) hls2]
        | false =>
          rw [show cysGo false (buf.map fixYamlLine) (fixYamlLine l :: ls.map fixYamlLine)
              = fixYamlLine l
                :: cysGo false (buf.map fixYamlLine) (ls.map fixYamlLine) from by
            simp only [cysGo, Bool.and_false, Bool.false_eq_true, if_false]
            rw [if_neg hoF]]
          rw [show cysGo false buf (l :: ls) = l :: cysGo false buf ls from by
            simp only [cysGo, Bool.and_false, Bool.false_eq_true, if_false]
            rw [if_neg ho]]
          rw [show (l :: cysGo false buf ls).map fixYamlLine
              = fixYamlLine l :: (cysGo false buf ls).map fixYamlLine from rfl]
          rw [ih false buf hls2]

/-- The repair pass returns empty input unchanged. -/
theorem cleanMarkerOutput_empty {x : Str} (hx : (x == ([] : Str)) = true) :
    cleanMarkerOutput x = x := by
  unfold cleanMarkerOutput
  rw [if_pos hx]

/-- The repair pass on nonempty input is the fence pass followed by the raw pass. -/
theorem cleanMarkerOutput_of_ne {x : Str} (hx : ¬ (x == ([] : Str)) = true) :
    cleanMarkerOutput x = cleanRawYaml (cleanYamlStructure x) := by
  unfold cleanMarkerOutput
  rw [if_neg hx]

/-- The full repair pass is idempotent on documents whose every line is dash-free after stripping. -/
theorem cleanMarkerOutput_idem_of_noDash {d : Str}
    (hnd : ∀ l ∈ splitLines d, noDashLine l = true) :
    cleanMarkerOutput (cleanMarkerOutput d) = cleanMarkerOutput d := by
  by_cases hd : (d == ([] : Str)) = true
  · have hde : d = [] := by simpa using hd
    subst hde
    rfl
  · have hcys1 : cleanYamlStructure d = joinLines (cysGo false [] (splitLines d)) := by
      unfold cleanYamlStructure
      rw [if_neg hd]
    have hndnl : ∀ l ∈ splitLines d, noDashLine l = true ∧ '\n' ∉ l :=
      fun l hl => ⟨hnd l hl, mem_splitLines_nl l hl⟩
    have hout : ∀ x ∈ cysGo false [] (splitLines d), noDashLine x = true ∧ '\n' ∉ x :=
      cysGo_mem_nd_nl (splitLines d) false [] hndnl
        (fun y hy => absurd hy (List.not_mem_nil y))
    have houtne : cysGo false [] (splitLines d) ≠ [] := by
      cases hsp : splitLines d with
      | nil => exact absurd hsp (splitLines_ne_nil d)
      | cons l ls => exact cysGo_false_ne_nil [] l ls
    have hA : cleanMarkerOutput d
        = joinLines ((cysGo false [] (splitLines d)).map fixYamlLine) := by
      rw [cleanMarkerOutput_of_ne hd, hcys1]
      unfold cleanRawYaml
      rw [splitLines_joinLines houtne (fun x hx => (hout x hx).2)]
      congr 1
      exact List.map_congr_left fun x hx => rawFix_eq_fix_of_noDash (hout x hx).1
    have hAmem : ∀ x ∈ (cysGo false [] (splitLines d)).map fixYamlLine,
        noDashLine x = true ∧ '\n' ∉ x := by
      intro x hx
      obtain ⟨y, hy, rfl⟩ := List.mem_map.mp hx
      obtain ⟨hy1, hy2⟩ := hout y hy
      exact ⟨(fixYamlLine_class_of_noDash hy1).2.2, fixYamlLine_nl_of_noDash hy1 hy2⟩
    have hAne : (cysGo false [] (splitLines d)).map fixYamlLine ≠ [] := by
      intro he
      rw [List.map_eq_nil_iff] at he
      exact houtne he
    by_cases hA0 : (cleanMarkerOutput d == ([] : Str)) = true
    · exact cleanMarkerOutput_empty hA0
    · have hsplA : splitLines (cleanMarkerOutput d)
          = (cysGo false [] (splitLines d)).map fixYamlLine := by
        rw [hA]
        exact splitLines_joinLines hAne (fun x hx => (hAmem x hx).2)
      have hsecond : cysGo false [] ((cysGo false [] (splitLines d)).map fixYamlLine)
          = (cysGo false [] (splitLines d)).map fixYamlLine := by
        have h1 := cysGo_map_fix (cysGo false [] (splitLines d)) false []
          (fun x hx => (hout x hx).1)
        rw [List.map_nil] at h1
        rw [h1, cysGo_second_pass (splitLines d) false [] hnd
          (fun y hy => absurd hy (List.not_mem_nil y))]
      have hcys2 : cleanYamlStructure (cleanMarkerOutput d) = cleanMarkerOutput d := by
        unfold cleanYamlStructure
        rw [if_neg hA0, hsplA, hsecond, ← hA]
      rw [cleanMarkerOutput_of_ne hA0, hcys2]
      unfold cleanRawYaml
      rw [hsplA]
      rw [show ((cysGo false [] (splitLines d)).map fixYamlLine).map rawFix
          = ((cysGo false [] (splitLines d)).map fixYamlLine).map fixYamlLine from
        List.map_congr_left fun x hx => rawFix_eq_fix_of_noDash (hAmem x hx).1]
      have hFF : ((cysGo false [] (splitLines d)).map fixYamlLine).map fixYamlLine
          = (cysGo false [] (splitLines d)).map fixYamlLine := by
        rw [List.map_map]
        exact List.map_congr_left fun a ha => fixYamlLine_idem_of_noDash (hout a ha).1
      rw [hFF]
      exact hA.symm

/-- Claim C1 (counterexample): the repair pass is not idempotent — on the
fenced yaml document consisting of the single list-item line " - a: b",
one application yields "  - a: b" but a second application re-matches the
repaired line as a dashed property and rewrites it again to "    a: b". -/
theorem repair_document_not_idempotent :
    cleanMarkerOutput (cleanMarkerOutput (("```yaml\n - a: b\n```").data))
      ≠ cleanMarkerOutput (("```yaml\n - a: b\n```").data)
    ∧ cleanMarkerOutput (("```yaml\n - a: b\n```").data)
        = (("```yaml\n  - a: b\n```").data)
    ∧ cleanMarkerOutput (("```yaml\n  - a: b\n```").data)
        = (("```yaml\n    a: b\n```").data) :=
  ⟨by decide, by decide, by decide⟩

/-- Claim C1 (amended): the raw non-fenced pass of the repair is idempotent
on every input, and the whole repair pass is idempotent on every document
none of whose lines has a stripped form beginning with a dash; for
documents with dash-led (list-item) lines idempotence fails, as the
counterexample shows. -/
theorem repair_document_idempotence_amended :
    (∀ d, cleanRawYaml (cleanRawYaml d) = cleanRawYaml d)
    ∧ (∀ d, (∀ l ∈ splitLines d, noDashLine l = true) →
        cleanMarkerOutput (cleanMarkerOutput d) = cleanMarkerOutput d) :=
  ⟨cleanRawYaml_idem, fun _ hnd => cleanMarkerOutput_idem_of_noDash hnd⟩

/-- Witness for the amended C1 at concrete documents: a raw document and a
dash-free fenced yaml document, both stable under a second repair. -/
theorem repair_document_idempotence_amended_witness :
    cleanRawYaml (cleanRawYaml ((" timeout: 8m\nok").data))
        = cleanRawYaml ((" timeout: 8m\nok").data)
    ∧ (∀ l ∈ splitLines (("```yaml\n name: foo\n```").data), noDashLine l = true)
    ∧ cleanMarkerOutput (cleanMarkerOutput (("```yaml\n name: foo\n```").data))
        = cleanMarkerOutput (("```yaml\n name: foo\n```").data) :=
  ⟨repair_document_idempotence_amended.1 _, by decide,
    repair_document_idempotence_amended.2 _ (by decide)⟩

/-! ## C3: the JSON formatter as value-preserving pretty-printing

The stack below proves that `loads` inverts `dumps` on well-formed values:
decimal printing is value-correct, string escaping is inverted by the
string scanner, the value scanner inverts the layout printer by induction
on the fuel, and canonicalization is the identity on well-formed values,
which are exactly the values `loads` can return. -/

/-- Digit characters are digits. -/
theorem digitCh_isDigit : ∀ n, (digitCh n).isDigit = true := by
  intro n
  match n with
  | 0 | 1 | 2 | 3 | 4 | 5 | 6 | 7 | 8 => decide
  | k + 9 => rfl

/-- Code point of a digit character. -/
theorem digitCh_toNat {n : Nat} (h : n < 10) : (digitCh n).toNat = 48 + n := by
  interval_cases n <;> decide

/-- A nonzero digit does not print as the zero character. -/
theorem digitCh_ne_zero {n : Nat} (h1 : n < 10) (h2 : n ≠ 0) : digitCh n ≠ '0' := by
  interval_cases n <;> first | exact absurd rfl h2 | decide

/-- The decimal printer loop appends to its accumulator. -/
theorem natStrAux_acc : ∀ f n acc, natStrAux f n acc = natStrAux f n [] ++ acc := by
  intro f
  induction f with
  | zero => intro n acc; rfl
  | succ g ih =>
    intro n acc
    by_cases hn : n = 0
    · subst hn; rfl
    · show natStrAux (g + 1) n acc = natStrAux (g + 1) n [] ++ acc
      unfold natStrAux
      rw [if_neg hn, if_neg hn, ih (n / 10) (digitCh (n % 10) :: acc),
        ih (n / 10) [digitCh (n % 10)], List.append_assoc]
      rfl

/-- The decimal printer emits a nonzero-led digit run whose value is the input. -/
theorem natStrAux_spec : ∀ n f, 1 ≤ n → n ≤ f →
    ∃ c ds, natStrAux f n [] = c :: ds ∧ c ≠ '0'
      ∧ (∀ x ∈ (c :: ds : Str), x.isDigit = true) ∧ digitsVal (c :: ds) = n := by
  intro n
  induction n using Nat.strong_induction_on with
  | _ n ih =>
    intro f h1 hf
    obtain ⟨g, rfl⟩ : ∃ g, f = g + 1 := ⟨f - 1, by omega⟩
    unfold natStrAux
    rw [if_neg (by omega)]
    by_cases h10 : n < 10
    · have hq : n / 10 = 0 := by omega
      rw [hq]
      have hz : natStrAux g 0 [digitCh (n % 10)] = [digitCh (n % 10)] := by
        cases g with
        | zero => rfl
        | succ g2 => unfold natStrAux; rw [if_pos rfl]
      rw [hz]
      have hm : n % 10 = n := by omega
      rw [hm]
      refine ⟨digitCh n, [], rfl, digitCh_ne_zero h10 (by omega), ?_, ?_⟩
      · intro x hx
        rw [List.mem_singleton] at hx
        subst hx
        exact digitCh_isDigit n
      · have hd := digitCh_toNat h10
        simp [digitsVal, hd]
    · have hq1 : 1 ≤ n / 10 := by omega
      have hqf : n / 10 ≤ g := by omega
      obtain ⟨c, ds, he, hc0, hdig, hval⟩ := ih (n / 10) (by omega) g hq1 hqf
      rw [natStrAux_acc, he]
      refine ⟨c, ds ++ [digitCh (n % 10)], by rw [List.cons_append], hc0, ?_, ?_⟩
      · intro x hx
        rcases List.mem_cons.mp hx with rfl | hx2
        · exact hdig x (List.mem_cons_self _ _)
        · rcases List.mem_append.mp hx2 with h2 | h3
          · exact hdig x (List.mem_cons_of_mem c h2)
          · rw [List.mem_singleton] at h3
            subst h3
            exact digitCh_isDigit (n % 10)
      · show digitsVal ((c :: ds) ++ [digitCh (n % 10)]) = n
        unfold digitsVal at hval ⊢
        rw [List.foldl_append, hval]
        have hd : (digitCh (n % 10)).toNat = 48 + n % 10 := digitCh_toNat (by omega)
        simp [hd]
        omega

/-- Decimal representation of a positive number: nonzero head, all digits, value-correct. -/
theorem natStr_spec {n : Nat} (h : 1 ≤ n) :
    ∃ c ds, natStr n = c :: ds ∧ c ≠ '0' ∧ (∀ x ∈ (c :: ds : Str), x.isDigit = true)
      ∧ digitsVal (c :: ds) = n := by
  unfold natStr
  rw [if_neg (by omega)]
  exact natStrAux_spec n n h le_rfl

/-- A digit is not JSON whitespace. -/
theorem isDigit_not_jsWs {c : Char} (h : c.isDigit = true) : jsWs c = false := by
  rw [Bool.eq_false_iff]
  intro hs
  have hc : ((c = ' ' ∨ c = '\t') ∨ c = '\n') ∨ c = '\r' := by simpa [jsWs] using hs
  rcases hc with ((rfl | rfl) | rfl) | rfl <;> exact absurd h (by decide)

/-- A digit differs from any non-digit character. -/
theorem isDigit_ne {c x : Char} (h : c.isDigit = true) (hx : x.isDigit = false) :
    c ≠ x := by
  intro he
  subst he
  rw [h] at hx
  exact absurd hx (by decide)

/-- Whitespace skipping stops at a non-whitespace head. -/
theorem skipJsWs_cons_neg {c : Char} {t : Str} (h : jsWs c = false) :
    skipJsWs (c :: t) = c :: t := by
  unfold skipJsWs
  rw [List.dropWhile_cons_of_neg (by simp [h])]

/-- Whitespace skipping crosses a space run. -/
theorem skipJsWs_replicate (n : Nat) (z : Str) :
    skipJsWs (List.replicate n ' ' ++ z) = skipJsWs z := by
  induction n with
  | zero => rfl
  | succ m ih =>
    rw [List.replicate_succ, List.cons_append]
    show skipJsWs (' ' :: (List.replicate m ' ' ++ z)) = skipJsWs z
    unfold skipJsWs
    rw [List.dropWhile_cons_of_pos (by decide)]
    exact ih

/-- Whitespace skipping crosses a newline-and-indentation run. -/
theorem skipJsWs_nlIndent (l : Nat) (z : Str) :
    skipJsWs (nlIndent l ++ z) = skipJsWs z := by
  unfold nlIndent
  rw [List.cons_append]
  show skipJsWs ('\n' :: (List.replicate (2 * l) ' ' ++ z)) = skipJsWs z
  unfold skipJsWs
  rw [List.dropWhile_cons_of_pos (by decide)]
  exact skipJsWs_replicate _ z

/-- Each character escape is nonempty. -/
theorem escChar_len (c : Char) : 1 ≤ (escChar c).length := by
  unfold escChar
  split_ifs <;> simp

/-- Escaping never shortens a string. -/
theorem escStr_len (s : Str) : s.length ≤ (escStr s).length := by
  induction s with
  | nil => simp [escStr]
  | cons c t ih =>
    show (c :: t).length ≤ (escChar c ++ escStr t).length
    rw [List.length_append, List.length_cons]
    have := escChar_len c
    omega

/-- Every printed value starts with a non-whitespace character that closes no bracket. -/
theorem printAt_head : ∀ lvl v, ∃ c t, printAt lvl v = c :: t
    ∧ jsWs c = false ∧ c ≠ ']' ∧ c ≠ '\x7d' := by
  intro lvl v
  have triple : ∀ c : Char,
      (c ∈ (['n', 't', 'f', '"', '[', '\x7b', '-'] : List Char)) →
      jsWs c = false ∧ c ≠ ']' ∧ c ≠ '\x7d' := by decide
  rcases v with _ | b | n | s | a | o
  · exact ⟨'n', _, rfl, triple 'n' (by decide)⟩
  · rcases b with _ | _
    · exact ⟨'f', _, rfl, triple 'f' (by decide)⟩
    · exact ⟨'t', _, rfl, triple 't' (by decide)⟩
  · rcases lt_trichotomy n 0 with hn | hn | hn
    · refine ⟨'-', natStr n.natAbs, ?_, triple '-' (by decide)⟩
      show intStr n = '-' :: natStr n.natAbs
      unfold intStr
      rw [if_pos hn]
    · subst hn
      refine ⟨'0', [], rfl, ?_, ?_, ?_⟩ <;> decide
    · obtain ⟨c, ds, he, hc0, hdig, hval⟩ := natStr_spec (n := n.natAbs) (by omega)
      have hcd := hdig c (List.mem_cons_self _ _)
      refine ⟨c, ds, ?_, isDigit_not_jsWs hcd, isDigit_ne hcd (by decide),
        isDigit_ne hcd (by decide)⟩
      show intStr n = c :: ds
      unfold intStr
      rw [if_neg (by omega), he]
  · exact ⟨'"', _, rfl, triple '"' (by decide)⟩
  · rcases a with _ | ⟨x, xs⟩
    · exact ⟨'[', [(']')], rfl, triple '[' (by decide)⟩
    · exact ⟨'[', _, rfl, triple '[' (by decide)⟩
  · rcases o with _ | ⟨k, w, t⟩
    · exact ⟨'\x7b', [('\x7d')], rfl, triple '\x7b' (by decide)⟩
    · exact ⟨'\x7b', _, rfl, triple '\x7b' (by decide)⟩

/-- Hex digits print and scan consistently. -/
theorem hexVal_hexCh {m : Nat} (h : m < 16) : hexVal (hexCh m) = some m := by
  interval_cases m <;> decide

/-- The string scanner inverts the printer escaping: an escaped body followed by a closing quote scans to the original string. -/
theorem parseStrF_escStr : ∀ f s rest, s.length + 1 ≤ f →
    parseStrF f (escStr s ++ '"' :: rest) = some (s, rest) := by
  intro f
  induction f with
  | zero =>
    intro s rest h
    omega
  | succ g ih =>
    intro s rest h
    cases s with
    | nil =>
      show parseStrF (g + 1) ('"' :: rest) = some ([], rest)
      rfl
    | cons c t =>
      have ht : t.length + 1 ≤ g := by
        rw [List.length_cons] at h
        omega
      by_cases h1 : c = '"'
      · subst h1
        show (parseStrF g (escStr t ++ '"' :: rest)).map (fun r => ('"' :: r.1, r.2))
            = some ('"' :: t, rest)
        rw [ih t rest ht]
        rfl
      · by_cases h2 : c = '\\'
        · subst h2
          show (parseStrF g (escStr t ++ '"' :: rest)).map (fun r => ('\\' :: r.1, r.2))
              = some ('\\' :: t, rest)
          rw [ih t rest ht]
          rfl
        · by_cases h3 : c = '\x08'
          · subst h3
            show (parseStrF g (escStr t ++ '"' :: rest)).map
                (fun r => ('\x08' :: r.1, r.2)) = some ('\x08' :: t, rest)
            rw [ih t rest ht]
            rfl
          · by_cases h4 : c = '\x0c'
            · subst h4
              show (parseStrF g (escStr t ++ '"' :: rest)).map
                  (fun r => ('\x0c' :: r.1, r.2)) = some ('\x0c' :: t, rest)
              rw [ih t rest ht]
              rfl
            · by_cases h5 : c = '\n'
              · subst h5
                show (parseStrF g (escStr t ++ '"' :: rest)).map
                    (fun r => ('\n' :: r.1, r.2)) = some ('\n' :: t, rest)
                rw [ih t rest ht]
                rfl
              · by_cases h6 : c = '\r'
                · subst h6
                  show (parseStrF g (escStr t ++ '"' :: rest)).map
                      (fun r => ('\r' :: r.1, r.2)) = some ('\r' :: t, rest)
                  rw [ih t rest ht]
                  rfl
                · by_cases h7 : c = '\t'
                  · subst h7
                    show (parseStrF g (escStr t ++ '"' :: rest)).map
                        (fun r => ('\t' :: r.1, r.2)) = some ('\t' :: t, rest)
                    rw [ih t rest ht]
                    rfl
                  · by_cases h8 : c.toNat < 32
                    · have hesc : escChar c
                          = ['\\', 'u', '0', '0', hexCh (c.toNat / 16),
                             hexCh (c.toNat % 16)] := by
                        unfold escChar
                        rw [if_neg h1, if_neg h2, if_neg h3, if_neg h4, if_neg h5,
                          if_neg h6, if_neg h7, if_pos h8]
                      rw [show escStr (c :: t) ++ '"' :: rest
                          = escChar c ++ (escStr t ++ '"' :: rest) from by
                        show (escChar c ++ escStr t) ++ '"' :: rest = _
                        rw [List.append_assoc]]
                      rw [hesc]
                      have e3 : hexVal (hexCh (c.toNat / 16)) = some (c.toNat / 16) :=
                        hexVal_hexCh (by omega)
                      have e4 : hexVal (hexCh (c.toNat % 16)) = some (c.toNat % 16) :=
                        hexVal_hexCh (by omega)
                      rw [show (['\\', 'u', '0', '0', hexCh (c.toNat / 16),
                          hexCh (c.toNat % 16)] : Str) ++ (escStr t ++ '"' :: rest)
                          = '\\' :: 'u' :: '0' :: '0' :: hexCh (c.toNat / 16)
                            :: hexCh (c.toNat % 16) :: (escStr t ++ '"' :: rest) from rfl]
                      unfold parseStrF
                      simp only [e3, e4]
                      show (if (decide (55296 ≤ ((0 * 16 + 0) * 16 + c.toNat / 16) * 16
                              + c.toNat % 16)
                            && decide (((0 * 16 + 0) * 16 + c.toNat / 16) * 16
                              + c.toNat % 16 ≤ 57343)) = true then none
                          else (parseStrF g (escStr t ++ '"' :: rest)).map
                            (fun r => (Char.ofNat (((0 * 16 + 0) * 16 + c.toNat / 16) * 16
                              + c.toNat % 16) :: r.1, r.2)))
                          = some (c :: t, rest)
                      rw [decide_eq_false (by omega :
                          ¬ (55296 ≤ ((0 * 16 + 0) * 16 + c.toNat / 16) * 16
                            + c.toNat % 16)), Bool.false_and]
                      rw [if_neg (by simp)]
                      rw [ih t rest ht,
                        show ((0 * 16 + 0) * 16 + c.toNat / 16) * 16 + c.toNat % 16
                          = c.toNat from by omega, Char.ofNat_toNat]
                      rfl
                    · have hesc : escChar c = [c] := by
                        unfold escChar
                        rw [if_neg h1, if_neg h2, if_neg h3, if_neg h4, if_neg h5,
                          if_neg h6, if_neg h7, if_neg h8]
                      rw [show escStr (c :: t) ++ '"' :: rest
                          = escChar c ++ (escStr t ++ '"' :: rest) from by
                        show (escChar c ++ escStr t) ++ '"' :: rest = _
                        rw [List.append_assoc]]
                      rw [hesc]
                      show parseStrF (g + 1) (c :: (escStr t ++ '"' :: rest))
                          = some (c :: t, rest)
                      unfold parseStrF
                      rw [if_neg h1, if_neg h2, if_neg (by omega : ¬ c.toNat < 32),
                        ih t rest ht]
                      rfl


/-- A digit run followed by a non-digit remainder splits exactly at the boundary. -/
theorem takeWhile_digits : ∀ (ds : Str) (rest : Str), (∀ x ∈ ds, x.isDigit = true) →
    (∀ c t, rest = c :: t → c.isDigit = false) →
    (ds ++ rest).takeWhile Char.isDigit = ds ∧ (ds ++ rest).dropWhile Char.isDigit = rest := by
  intro ds
  induction ds with
  | nil =>
    intro rest hd hr
    cases rest with
    | nil => exact ⟨rfl, rfl⟩
    | cons c t =>
      have hc := hr c t rfl
      constructor
      · rw [List.nil_append, List.takeWhile_cons_of_neg (by simp [hc])]
      · rw [List.nil_append, List.dropWhile_cons_of_neg (by simp [hc])]
  | cons d ds ih =>
    intro rest hd hr
    have hdd := hd d (List.mem_cons_self _ _)
    obtain ⟨ih1, ih2⟩ := ih rest (fun x hx => hd x (List.mem_cons_of_mem d hx)) hr
    constructor
    · rw [List.cons_append, List.takeWhile_cons_of_pos (by simp [hdd]), ih1]
    · rw [List.cons_append, List.dropWhile_cons_of_pos (by simp [hdd]), ih2]

/-- On a digit head the value scanner runs the number scanner. -/
theorem parseVal_digit_head {g : Nat} {c : Char} {t : Str} (hc : c.isDigit = true) :
    parseVal (g + 1) (c :: t) = parseNumAt (c :: t) := by
  unfold parseVal
  split
  · rename_i heq
    exact absurd heq (by simp)
  · rename_i heq
    injection heq with h1 h2
    rw [h1] at hc
    exact absurd hc (by decide)
  · rename_i heq
    injection heq with h1 h2
    rw [h1] at hc
    exact absurd hc (by decide)
  · rename_i heq
    injection heq with h1 h2
    rw [h1] at hc
    exact absurd hc (by decide)
  · rename_i heq
    injection heq with h1 h2
    rw [h1] at hc
    exact absurd hc (by decide)
  · rename_i heq
    injection heq with h1 h2
    rw [h1] at hc
    exact absurd hc (by decide)
  · rename_i heq
    injection heq with h1 h2
    rw [h1] at hc
    exact absurd hc (by decide)
  · rfl


/-- The number scanner reads back a nonzero-led digit run. -/
theorem parseNumAt_pos {c : Char} {ds rest : Str} (hc0 : c ≠ '0')
    (hd : ∀ x ∈ (c :: ds : Str), x.isDigit = true)
    (hr : ∀ c2 t, rest = c2 :: t → c2.isDigit = false) :
    parseNumAt ((c :: ds) ++ rest) = some (.num ((digitsVal (c :: ds) : Nat) : Int), rest) := by
  have hc := hd c (List.mem_cons_self _ _)
  obtain ⟨htw, hdw⟩ := takeWhile_digits (c :: ds) rest hd hr
  unfold parseNumAt
  split
  · rename_i heq
    rw [List.cons_append] at heq
    injection heq with h1 h2
    rw [h1] at hc
    exact absurd hc (by decide)
  · show (Option.map (fun r => (Json.num (r.1 : Int), r.2))
        (match c :: ds ++ rest with
         | '0' :: t => some (0, t)
         | c :: t =>
           if c.isDigit = true then
             some (digitsVal (List.takeWhile Char.isDigit (c :: t)),
               List.dropWhile Char.isDigit (c :: t))
           else none
         | [] => none)) = some (Json.num (digitsVal (c :: ds) : Int), rest)
    split
    · rename_i heq
      rw [List.cons_append] at heq
      injection heq with h1 h2
      exact absurd h1 hc0
    · rename_i c2 t2 heq
      rw [List.cons_append] at heq
      injection heq with h1 h2
      subst h1
      subst h2
      rw [if_pos (by simp [hc])]
      rw [← List.cons_append, htw, hdw]
      rfl
    · rename_i heq
      rw [List.cons_append] at heq
      exact absurd heq (by simp)


/-- The number scanner reads back a minus sign and a nonzero-led digit run. -/
theorem parseNumAt_neg {c : Char} {ds rest : Str} (hc0 : c ≠ '0')
    (hd : ∀ x ∈ (c :: ds : Str), x.isDigit = true)
    (hr : ∀ c2 t, rest = c2 :: t → c2.isDigit = false) :
    parseNumAt ('-' :: ((c :: ds) ++ rest))
      = some (.num (-(digitsVal (c :: ds) : Int)), rest) := by
  have hc := hd c (List.mem_cons_self _ _)
  obtain ⟨htw, hdw⟩ := takeWhile_digits (c :: ds) rest hd hr
  show (Option.map (fun r => (Json.num (-(r.1 : Int)), r.2))
      (match c :: ds ++ rest with
       | '0' :: t => some (0, t)
       | c :: t =>
         if c.isDigit = true then
           some (digitsVal (List.takeWhile Char.isDigit (c :: t)),
             List.dropWhile Char.isDigit (c :: t))
         else none
       | [] => none)) = some (Json.num (-(digitsVal (c :: ds) : Int)), rest)
  split
  · rename_i heq
    rw [List.cons_append] at heq
    injection heq with h1 h2
    exact absurd h1 hc0
  · rename_i c2 t2 heq
    rw [List.cons_append] at heq
    injection heq with h1 h2
    subst h1
    subst h2
    rw [if_pos (by simp [hc])]
    rw [← List.cons_append, htw, hdw]
    rfl
  · rename_i heq
    rw [List.cons_append] at heq
    exact absurd heq (by simp)

/-- Length of the newline-and-indentation run. -/
theorem len_nlIndent (l : Nat) : (nlIndent l).length = 2 * l + 1 := by
  simp [nlIndent]

/-- The indentation run starts with a newline. -/
theorem nlIndent_append_head {l : Nat} {z : Str} {c : Char} {t : Str}
    (h : nlIndent l ++ z = c :: t) : c = '\n' := by
  unfold nlIndent at h
  rw [List.cons_append] at h
  injection h with h1 h2
  exact h1.symm

/-- Skipping whitespace at a single-item array body lands at the item. -/
theorem items_input_nil (lvl : Nat) (x : Json) (Z : Str) :
    skipJsWs (printArrItems lvl (.cons x .nil) ++ Z) = printAt lvl x ++ Z := by
  show skipJsWs ((nlIndent lvl ++ printAt lvl x) ++ Z) = _
  rw [List.append_assoc, skipJsWs_nlIndent]
  obtain ⟨c, t0, hpr, hws, h1, h2⟩ := printAt_head lvl x
  rw [hpr, List.cons_append, skipJsWs_cons_neg hws, ← List.cons_append, ← hpr]

/-- Skipping whitespace at a multi-item array body lands at the first item. -/
theorem items_input_cons (lvl : Nat) (x y : Json) (ys : JArr) (Z : Str) :
    skipJsWs (printArrItems lvl (.cons x (.cons y ys)) ++ Z)
      = printAt lvl x ++ (',' :: (printArrItems lvl (.cons y ys) ++ Z)) := by
  show skipJsWs (((nlIndent lvl ++ printAt lvl x) ++ ',' :: printArrItems lvl (.cons y ys)) ++ Z)
      = _
  rw [List.append_assoc, List.append_assoc, skipJsWs_nlIndent, List.cons_append]
  obtain ⟨c, t0, hpr, hws, h1, h2⟩ := printAt_head lvl x
  rw [hpr, List.cons_append, skipJsWs_cons_neg hws, ← List.cons_append, ← hpr]

/-- Skipping whitespace at a single-member object body lands at the opening key quote. -/
theorem members_input_nil (lvl : Nat) (k : Str) (v : Json) (Z : Str) :
    skipJsWs (printObjItems lvl (.cons k v .nil) ++ Z)
      = '"' :: (escStr k ++ '"' :: (':' :: ' ' :: (printAt lvl v ++ Z))) := by
  show skipJsWs ((((nlIndent lvl ++ quoteStr k) ++ (": ").data) ++ printAt lvl v) ++ Z) = _
  rw [List.append_assoc, List.append_assoc, List.append_assoc, skipJsWs_nlIndent]
  rw [show quoteStr k ++ ((": ").data ++ (printAt lvl v ++ Z))
      = '"' :: ((escStr k ++ ['"']) ++ (':' :: ' ' :: (printAt lvl v ++ Z))) from rfl]
  rw [skipJsWs_cons_neg (by decide), List.append_assoc, List.singleton_append]

/-- Skipping whitespace at a multi-member object body lands at the opening key quote. -/
theorem members_input_cons (lvl : Nat) (k : Str) (v : Json) (k2 : Str) (v2 : Json)
    (t : JObj) (Z : Str) :
    skipJsWs (printObjItems lvl (.cons k v (.cons k2 v2 t)) ++ Z)
      = '"' :: (escStr k ++ '"' :: (':' :: ' ' :: (printAt lvl v
          ++ (',' :: (printObjItems lvl (.cons k2 v2 t) ++ Z))))) := by
  show skipJsWs (((((nlIndent lvl ++ quoteStr k) ++ (": ").data) ++ printAt lvl v)
      ++ ',' :: printObjItems lvl (.cons k2 v2 t)) ++ Z) = _
  rw [List.append_assoc, List.append_assoc, List.append_assoc, List.append_assoc,
    skipJsWs_nlIndent]
  rw [show quoteStr k ++ ((": ").data ++ (printAt lvl v
      ++ (',' :: printObjItems lvl (.cons k2 v2 t) ++ Z)))
      = '"' :: ((escStr k ++ ['"']) ++ (':' :: ' ' :: (printAt lvl v
          ++ (',' :: printObjItems lvl (.cons k2 v2 t) ++ Z)))) from rfl]
  rw [skipJsWs_cons_neg (by decide), List.append_assoc, List.singleton_append,
    List.cons_append]

/-- A printed array body never starts with a closing bracket. -/
theorem items_head (lvl : Nat) (x : Json) (xs : JArr) (Z : Str) :
    ∃ c t0, skipJsWs (printArrItems lvl (.cons x xs) ++ Z) = c :: t0
      ∧ c ≠ ']' ∧ c ≠ '\x7d' := by
  obtain ⟨c, t0, hpr, hws, h1, h2⟩ := printAt_head lvl x
  cases xs with
  | nil =>
    refine ⟨c, t0 ++ Z, ?_, h1, h2⟩
    rw [items_input_nil, hpr, List.cons_append]
  | cons y ys =>
    refine ⟨c, t0 ++ (',' :: (printArrItems lvl (.cons y ys) ++ Z)), ?_, h1, h2⟩
    rw [items_input_cons, hpr, List.cons_append]

/-- The scanner inverts the printer: with enough fuel, a printed well-formed value followed by a non-digit remainder scans back to the value, and likewise for printed array and object bodies. -/
theorem parse_print : ∀ f,
    (∀ lvl v rest, jwf v = true → (printAt lvl v).length ≤ f →
      (∀ c2 t2, rest = c2 :: t2 → c2.isDigit = false) →
      parseVal f (printAt lvl v ++ rest) = some (v, rest))
    ∧ (∀ lvl lvl2 x xs rest, awf (JArr.cons x xs) = true →
        (printArrItems lvl (JArr.cons x xs)).length ≤ f →
        parseItems f (skipJsWs (printArrItems lvl (JArr.cons x xs)
          ++ (nlIndent lvl2 ++ ']' :: rest))) = some (JArr.cons x xs, rest))
    ∧ (∀ lvl lvl2 k v t rest, owf (JObj.cons k v t) = true →
        (printObjItems lvl (JObj.cons k v t)).length ≤ f →
        parseMembers f (skipJsWs (printObjItems lvl (JObj.cons k v t)
          ++ (nlIndent lvl2 ++ '\x7d' :: rest))) = some (JObj.cons k v t, rest)) := by
  intro f
  induction f with
  | zero =>
    refine ⟨?_, ?_, ?_⟩
    · intro lvl v rest hwf hlen hrest
      obtain ⟨c, t0, hpr, h1, h2, h3⟩ := printAt_head lvl v
      rw [hpr] at hlen
      simp at hlen
    · intro lvl lvl2 x xs rest hwf hlen
      cases xs <;> simp [printArrItems, nlIndent] at hlen
    · intro lvl lvl2 k v t rest hwf hlen
      cases t <;> simp [printObjItems, nlIndent] at hlen
  | succ g ih =>
    obtain ⟨ihV, ihA, ihO⟩ := ih
    refine ⟨?_, ?_, ?_⟩
    · intro lvl v rest hwf hlen hrest
      cases v with
      | null => rfl
      | bool b =>
        cases b with
        | true => rfl
        | false => rfl
      | num n =>
        rcases lt_trichotomy n 0 with hn | hn | hn
        · rw [show printAt lvl (.num n) = '-' :: natStr n.natAbs from by
            show intStr n = _
            unfold intStr
            rw [if_pos hn]]
          obtain ⟨c, ds, he, hc0, hdig, hval⟩ := natStr_spec (n := n.natAbs) (by omega)
          rw [he, show (('-' :: (c :: ds) : Str)) ++ rest = '-' :: ((c :: ds) ++ rest) from rfl]
          show parseNumAt ('-' :: ((c :: ds) ++ rest)) = some (.num n, rest)
          rw [parseNumAt_neg hc0 hdig hrest, hval,
            show (-((n.natAbs : Nat) : Int)) = n from by omega]
        · subst hn
          rfl
        · rw [show printAt lvl (.num n) = natStr n.natAbs from by
            show intStr n = _
            unfold intStr
            rw [if_neg (by omega)]]
          obtain ⟨c, ds, he, hc0, hdig, hval⟩ := natStr_spec (n := n.natAbs) (by omega)
          rw [he, List.cons_append,
            parseVal_digit_head (hdig c (List.mem_cons_self _ _)), ← List.cons_append,
            parseNumAt_pos hc0 hdig hrest, hval,
            show (((n.natAbs : Nat) : Int)) = n from by omega]
      | str s =>
        show (parseStrF g ((escStr s ++ ['"']) ++ rest)).map (fun r => (Json.str r.1, r.2))
            = some (.str s, rest)
        have hfu : s.length + 1 ≤ g := by
          have h1 := escStr_len s
          have h2 : (printAt lvl (.str s)).length = (escStr s).length + 2 := by
            show (quoteStr s).length = _
            simp [quoteStr]
          omega
        rw [List.append_assoc, List.singleton_append, parseStrF_escStr g s rest hfu]
        rfl
      | arr a =>
        cases a with
        | nil => rfl
        | cons x xs =>
          rw [show printAt lvl (.arr (.cons x xs)) ++ rest
              = '[' :: (printArrItems (lvl + 1) (.cons x xs)
                ++ (nlIndent lvl ++ ']' :: rest)) from by
            show ('[' :: ((printArrItems (lvl + 1) (.cons x xs) ++ nlIndent lvl)
              ++ [(']')])) ++ rest = _
            simp [List.append_assoc]]
          show (match skipJsWs (printArrItems (lvl + 1) (.cons x xs)
                ++ (nlIndent lvl ++ ']' :: rest)) with
              | ']' :: t2 => some (Json.arr JArr.nil, t2)
              | t1 => (parseItems g t1).map (fun r => (Json.arr r.1, r.2)))
            = some (.arr (.cons x xs), rest)
          obtain ⟨c, t0, hsk, hne1, hne2⟩ :=
            items_head (lvl + 1) x xs (nlIndent lvl ++ ']' :: rest)
          rw [hsk]
          split
          · rename_i heq
            injection heq with hh1 hh2
            exact absurd hh1 hne1
          · rw [← hsk]
            have hfu : (printArrItems (lvl + 1) (JArr.cons x xs)).length ≤ g := by
              simp [printAt, nlIndent] at hlen
              omega
            rw [ihA (lvl + 1) lvl x xs rest hwf hfu]
            rfl
      | obj o =>
        cases o with
        | nil => rfl
        | cons k v t =>
          rw [show printAt lvl (.obj (.cons k v t)) ++ rest
              = '\x7b' :: (printObjItems (lvl + 1) (.cons k v t)
                ++ (nlIndent lvl ++ '\x7d' :: rest)) from by
            show ('\x7b' :: ((printObjItems (lvl + 1) (.cons k v t) ++ nlIndent lvl)
              ++ [('\x7d')])) ++ rest = _
            simp [List.append_assoc]]
          show (match skipJsWs (printObjItems (lvl + 1) (.cons k v t)
                ++ (nlIndent lvl ++ '\x7d' :: rest)) with
              | '\x7d' :: t2 => some (Json.obj JObj.nil, t2)
              | t1 => (parseMembers g t1).map (fun r => (Json.obj r.1, r.2)))
            = some (.obj (.cons k v t), rest)
          have hfu : (printObjItems (lvl + 1) (JObj.cons k v t)).length ≤ g := by
            simp [printAt, nlIndent] at hlen
            omega
          cases t with
          | nil =>
            rw [members_input_nil]
            show (parseMembers g ('"' :: (escStr k ++ '"' :: (':' :: ' '
                :: (printAt (lvl + 1) v ++ (nlIndent lvl ++ '\x7d' :: rest)))))).map
                (fun r => (Json.obj r.1, r.2))
              = some (.obj (.cons k v .nil), rest)
            rw [← members_input_nil, ihO (lvl + 1) lvl k v .nil rest hwf hfu]
            rfl
          | cons k2 v2 t2 =>
            rw [members_input_cons]
            show (parseMembers g ('"' :: (escStr k ++ '"' :: (':' :: ' '
                :: (printAt (lvl + 1) v ++ (',' :: (printObjItems (lvl + 1)
                  (.cons k2 v2 t2) ++ (nlIndent lvl ++ '\x7d' :: rest)))))))).map
                (fun r => (Json.obj r.1, r.2))
              = some (.obj (.cons k v (.cons k2 v2 t2)), rest)
            rw [← members_input_cons, ihO (lvl + 1) lvl k v (.cons k2 v2 t2) rest hwf hfu]
            rfl
    · intro lvl lvl2 x xs rest hwf hlen
      have hwx : jwf x = true := (Bool.and_eq_true_iff.mp hwf).1
      cases xs with
      | nil =>
        rw [items_input_nil]
        show (match parseVal g (printAt lvl x ++ (nlIndent lvl2 ++ ']' :: rest)) with
            | none => none
            | some (v, r) =>
              match skipJsWs r with
              | ',' :: r2 => (parseItems g (skipJsWs r2)).map
                  (fun q => (JArr.cons v q.1, q.2))
              | ']' :: r2 => some (JArr.cons v JArr.nil, r2)
              | _ => none)
          = some (JArr.cons x JArr.nil, rest)
        have hfu : (printAt lvl x).length ≤ g := by
          simp [printArrItems, nlIndent] at hlen
          omega
        rw [ihV lvl x (nlIndent lvl2 ++ ']' :: rest) hwx hfu
          (fun c2 t2 h => by rw [nlIndent_append_head h]; decide)]
        show (match skipJsWs (nlIndent lvl2 ++ ']' :: rest) with
            | ',' :: r2 => (parseItems g (skipJsWs r2)).map
                (fun q => (JArr.cons x q.1, q.2))
            | ']' :: r2 => some (JArr.cons x JArr.nil, r2)
            | _ => none)
          = some (JArr.cons x JArr.nil, rest)
        rw [skipJsWs_nlIndent, skipJsWs_cons_neg (by decide)]
        rfl
      | cons y ys =>
        rw [items_input_cons]
        show (match parseVal g (printAt lvl x ++ (',' :: (printArrItems lvl
              (JArr.cons y ys) ++ (nlIndent lvl2 ++ ']' :: rest)))) with
            | none => none
            | some (v, r) =>
              match skipJsWs r with
              | ',' :: r2 => (parseItems g (skipJsWs r2)).map
                  (fun q => (JArr.cons v q.1, q.2))
              | ']' :: r2 => some (JArr.cons v JArr.nil, r2)
              | _ => none)
          = some (JArr.cons x (JArr.cons y ys), rest)
        have hwys : awf (JArr.cons y ys) = true := (Bool.and_eq_true_iff.mp hwf).2
        have hfu : (printAt lvl x).length ≤ g ∧
            (printArrItems lvl (JArr.cons y ys)).length ≤ g := by
          constructor <;> (simp [printArrItems, nlIndent] at hlen; omega)
        rw [ihV lvl x (',' :: (printArrItems lvl (JArr.cons y ys)
            ++ (nlIndent lvl2 ++ ']' :: rest))) hwx hfu.1
          (fun c2 t2 h => by injection h with hh1 hh2; rw [← hh1]; decide)]
        show (match skipJsWs (',' :: (printArrItems lvl (JArr.cons y ys)
              ++ (nlIndent lvl2 ++ ']' :: rest))) with
            | ',' :: r2 => (parseItems g (skipJsWs r2)).map
                (fun q => (JArr.cons x q.1, q.2))
            | ']' :: r2 => some (JArr.cons x JArr.nil, r2)
            | _ => none)
          = some (JArr.cons x (JArr.cons y ys), rest)
        rw [skipJsWs_cons_neg (by decide)]
        show (parseItems g (skipJsWs (printArrItems lvl (JArr.cons y ys)
            ++ (nlIndent lvl2 ++ ']' :: rest)))).map (fun q => (JArr.cons x q.1, q.2))
          = some (JArr.cons x (JArr.cons y ys), rest)
        rw [ihA lvl lvl2 y ys rest hwys hfu.2]
        rfl
    · intro lvl lvl2 k v t rest hwf hlen
      have hwv : jwf v = true := by
        have h1 := (Bool.and_eq_true_iff.mp hwf).1
        exact (Bool.and_eq_true_iff.mp h1).2
      cases t with
      | nil =>
        rw [members_input_nil]
        show (match parseStrF g (escStr k ++ '"' :: (':' :: ' ' :: (printAt lvl v
              ++ (nlIndent lvl2 ++ '\x7d' :: rest)))) with
            | none => none
            | some (k2, r) =>
              match skipJsWs r with
              | ':' :: r2 =>
                (match parseVal g (skipJsWs r2) with
                 | none => none
                 | some (v2, r3) =>
                   match skipJsWs r3 with
                   | ',' :: r4 => (parseMembers g (skipJsWs r4)).map
                       (fun q => (JObj.cons k2 v2 q.1, q.2))
                   | '\x7d' :: r4 => some (JObj.cons k2 v2 JObj.nil, r4)
                   | _ => none)
              | _ => none)
          = some (JObj.cons k v JObj.nil, rest)
        have hfu : k.length + 1 ≤ g ∧ (printAt lvl v).length ≤ g := by
          have he := escStr_len k
          constructor <;> (simp [printObjItems, nlIndent, quoteStr] at hlen; omega)
        rw [parseStrF_escStr g k _ hfu.1]
        show (match skipJsWs (':' :: ' ' :: (printAt lvl v
              ++ (nlIndent lvl2 ++ '\x7d' :: rest))) with
            | ':' :: r2 =>
              (match parseVal g (skipJsWs r2) with
               | none => none
               | some (v2, r3) =>
                 match skipJsWs r3 with
                 | ',' :: r4 => (parseMembers g (skipJsWs r4)).map
                     (fun q => (JObj.cons k v2 q.1, q.2))
                 | '\x7d' :: r4 => some (JObj.cons k v2 JObj.nil, r4)
                 | _ => none)
            | _ => none)
          = some (JObj.cons k v JObj.nil, rest)
        rw [skipJsWs_cons_neg (by decide)]
        show (match parseVal g (skipJsWs (' ' :: (printAt lvl v
              ++ (nlIndent lvl2 ++ '\x7d' :: rest)))) with
            | none => none
            | some (v2, r3) =>
              match skipJsWs r3 with
              | ',' :: r4 => (parseMembers g (skipJsWs r4)).map
                  (fun q => (JObj.cons k v2 q.1, q.2))
              | '\x7d' :: r4 => some (JObj.cons k v2 JObj.nil, r4)
              | _ => none)
          = some (JObj.cons k v JObj.nil, rest)
        rw [show skipJsWs (' ' :: (printAt lvl v ++ (nlIndent lvl2 ++ '\x7d' :: rest)))
            = skipJsWs (printAt lvl v ++ (nlIndent lvl2 ++ '\x7d' :: rest)) from rfl]
        obtain ⟨c, t0, hpr, hws, h1, h2⟩ := printAt_head lvl v
        rw [hpr, List.cons_append, skipJsWs_cons_neg hws, ← List.cons_append, ← hpr]
        rw [ihV lvl v (nlIndent lvl2 ++ '\x7d' :: rest) hwv hfu.2
          (fun c2 t2 h => by rw [nlIndent_append_head h]; decide)]
        show (match skipJsWs (nlIndent lvl2 ++ '\x7d' :: rest) with
            | ',' :: r4 => (parseMembers g (skipJsWs r4)).map
                (fun q => (JObj.cons k v q.1, q.2))
            | '\x7d' :: r4 => some (JObj.cons k v JObj.nil, r4)
            | _ => none)
          = some (JObj.cons k v JObj.nil, rest)
        rw [skipJsWs_nlIndent, skipJsWs_cons_neg (by decide)]
        rfl
      | cons k2 v2 t2 =>
        rw [members_input_cons]
        show (match parseStrF g (escStr k ++ '"' :: (':' :: ' ' :: (printAt lvl v
              ++ (',' :: (printObjItems lvl (JObj.cons k2 v2 t2)
                ++ (nlIndent lvl2 ++ '\x7d' :: rest)))))) with
            | none => none
            | some (k3, r) =>
              match skipJsWs r with
              | ':' :: r2 =>
                (match parseVal g (skipJsWs r2) with
                 | none => none
                 | some (v3, r3) =>
                   match skipJsWs r3 with
                   | ',' :: r4 => (parseMembers g (skipJsWs r4)).map
                       (fun q => (JObj.cons k3 v3 q.1, q.2))
                   | '\x7d' :: r4 => some (JObj.cons k3 v3 JObj.nil, r4)
                   | _ => none)
              | _ => none)
          = some (JObj.cons k v (JObj.cons k2 v2 t2), rest)
        have hwt : owf (JObj.cons k2 v2 t2) = true := (Bool.and_eq_true_iff.mp hwf).2
        have hfu : (k.length + 1 ≤ g ∧ (printAt lvl v).length ≤ g)
            ∧ (printObjItems lvl (JObj.cons k2 v2 t2)).length ≤ g := by
          have he := escStr_len k
          refine ⟨⟨?_, ?_⟩, ?_⟩ <;> (simp [printObjItems, nlIndent, quoteStr] at hlen; omega)
        rw [parseStrF_escStr g k _ hfu.1.1]
        show (match skipJsWs (':' :: ' ' :: (printAt lvl v
              ++ (',' :: (printObjItems lvl (JObj.cons k2 v2 t2)
                ++ (nlIndent lvl2 ++ '\x7d' :: rest))))) with
            | ':' :: r2 =>
              (match parseVal g (skipJsWs r2) with
               | none => none
               | some (v3, r3) =>
                 match skipJsWs r3 with
                 | ',' :: r4 => (parseMembers g (skipJsWs r4)).map
                     (fun q => (JObj.cons k v3 q.1, q.2))
                 | '\x7d' :: r4 => some (JObj.cons k v3 JObj.nil, r4)
                 | _ => none)
            | _ => none)
          = some (JObj.cons k v (JObj.cons k2 v2 t2), rest)
        rw [skipJsWs_cons_neg (by decide)]
        show (match parseVal g (skipJsWs (' ' :: (printAt lvl v
              ++ (',' :: (printObjItems lvl (JObj.cons k2 v2 t2)
                ++ (nlIndent lvl2 ++ '\x7d' :: rest)))))) with
            | none => none
            | some (v3, r3) =>
              match skipJsWs r3 with
              | ',' :: r4 => (parseMembers g (skipJsWs r4)).map
                  (fun q => (JObj.cons k v3 q.1, q.2))
              | '\x7d' :: r4 => some (JObj.cons k v3 JObj.nil, r4)
              | _ => none)
          = some (JObj.cons k v (JObj.cons k2 v2 t2), rest)
        rw [show skipJsWs (' ' :: (printAt lvl v ++ (',' :: (printObjItems lvl
              (JObj.cons k2 v2 t2) ++ (nlIndent lvl2 ++ '\x7d' :: rest)))))
            = skipJsWs (printAt lvl v ++ (',' :: (printObjItems lvl
              (JObj.cons k2 v2 t2) ++ (nlIndent lvl2 ++ '\x7d' :: rest)))) from rfl]
        obtain ⟨c, t0, hpr, hws, h1, h2⟩ := printAt_head lvl v
        rw [hpr, List.cons_append, skipJsWs_cons_neg hws, ← List.cons_append, ← hpr]
        rw [ihV lvl v (',' :: (printObjItems lvl (JObj.cons k2 v2 t2)
            ++ (nlIndent lvl2 ++ '\x7d' :: rest))) hwv hfu.1.2
          (fun c2 t2 h => by injection h with hh1 hh2; rw [← hh1]; decide)]
        show (match skipJsWs (',' :: (printObjItems lvl (JObj.cons k2 v2 t2)
              ++ (nlIndent lvl2 ++ '\x7d' :: rest))) with
            | ',' :: r4 => (parseMembers g (skipJsWs r4)).map
                (fun q => (JObj.cons k v q.1, q.2))
            | '\x7d' :: r4 => some (JObj.cons k v JObj.nil, r4)
            | _ => none)
          = some (JObj.cons k v (JObj.cons k2 v2 t2), rest)
        rw [skipJsWs_cons_neg (by decide)]
        show (parseMembers g (skipJsWs (printObjItems lvl (JObj.cons k2 v2 t2)
            ++ (nlIndent lvl2 ++ '\x7d' :: rest)))).map
            (fun q => (JObj.cons k v q.1, q.2))
          = some (JObj.cons k v (JObj.cons k2 v2 t2), rest)
        rw [ihO lvl lvl2 k2 v2 t2 rest hwt hfu.2]
        rfl

/-- Key order is transitive. -/
theorem keyLt_trans : ∀ {a b c : Str}, keyLt a b = true → keyLt b c = true →
    keyLt a c = true := by
  intro a
  induction a with
  | nil =>
    intro b c hab hbc
    cases b with
    | nil => exact absurd hab (by simp [keyLt])
    | cons b0 bs =>
      cases c with
      | nil => exact absurd hbc (by simp [keyLt])
      | cons c0 cs => rfl
  | cons a0 as ih =>
    intro b c hab hbc
    cases b with
    | nil => exact absurd hab (by simp [keyLt])
    | cons b0 bs =>
      cases c with
      | nil => exact absurd hbc (by simp [keyLt])
      | cons c0 cs =>
        simp only [keyLt, Bool.or_eq_true, Bool.and_eq_true, beq_iff_eq,
          decide_eq_true_eq] at hab hbc ⊢
        rcases hab with h1 | ⟨rfl, h2⟩
        · rcases hbc with h3 | ⟨rfl, h4⟩
          · exact Or.inl (by omega)
          · exact Or.inl h1
        · rcases hbc with h3 | ⟨rfl, h4⟩
          · exact Or.inl h3
          · exact Or.inr ⟨rfl, ih h2 h4⟩

/-- Key order is connected: distinct incomparable keys compare the other way. -/
theorem keyLt_conn : ∀ {a b : Str}, keyLt a b = false → (a == b) = false →
    keyLt b a = true := by
  intro a
  induction a with
  | nil =>
    intro b h1 h2
    cases b with
    | nil => exact absurd h2 (by simp)
    | cons b0 bs => exact absurd h1 (by simp [keyLt])
  | cons a0 as ih =>
    intro b h1 h2
    cases b with
    | nil => rfl
    | cons b0 bs =>
      simp only [keyLt, Bool.or_eq_false_iff, Bool.and_eq_false_iff,
        decide_eq_false_iff_not] at h1
      obtain ⟨hle, hor⟩ := h1
      simp only [List.cons_beq_cons, Bool.and_eq_false_iff] at h2
      by_cases he : a0 = b0
      · subst he
        have hkl : keyLt as bs = false := by
          rcases hor with h | h
          · simp at h
          · exact h
        have hbs : (as == bs) = false := by
          rcases h2 with h | h
          · simp at h
          · exact h
        simp only [keyLt, Bool.or_eq_true, Bool.and_eq_true, beq_iff_eq,
          decide_eq_true_eq]
        exact Or.inr ⟨trivial, ih hkl hbs⟩
      · have hne : a0.toNat ≠ b0.toNat := by
          intro hx
          exact he (by rw [← Char.ofNat_toNat a0, hx, Char.ofNat_toNat])
        simp only [keyLt, Bool.or_eq_true, Bool.and_eq_true, beq_iff_eq,
          decide_eq_true_eq]
        exact Or.inl (by omega)

/-- A lower bound transfers down the key order. -/
theorem keyLtAll_of_lt {k k0 : Str} (h1 : keyLt k k0 = true) :
    ∀ o : JObj, keyLtAll k0 o = true → keyLtAll k o = true
  | .nil, _ => rfl
  | .cons k1 v1 t, h2 => by
    obtain ⟨h3, h4⟩ := Bool.and_eq_true_iff.mp h2
    show (keyLt k k1 && keyLtAll k t) = true
    rw [keyLt_trans h1 h3, keyLtAll_of_lt h1 t h4]
    rfl

/-- Insertion preserves a strict lower bound on an object. -/
theorem keyLtAll_insert {k0 k : Str} {v : Json} (h2 : keyLt k0 k = true) :
    ∀ o : JObj, keyLtAll k0 o = true →
    keyLtAll k0 (insertIfAbsent k v o) = true
  | .nil, _ => by
    show (keyLt k0 k && true) = true
    rw [h2]
    rfl
  | .cons k1 v1 t, h1 => by
    obtain ⟨h3, h4⟩ := Bool.and_eq_true_iff.mp h1
    unfold insertIfAbsent
    by_cases hc1 : keyLt k k1 = true
    · rw [if_pos hc1]
      show (keyLt k0 k && (keyLt k0 k1 && keyLtAll k0 t)) = true
      rw [h2, h3, h4]
      rfl
    · rw [if_neg hc1]
      by_cases hc2 : (k == k1) = true
      · rw [if_pos hc2]
        exact h1
      · rw [if_neg hc2]
        show (keyLt k0 k1 && keyLtAll k0 (insertIfAbsent k v t)) = true
        rw [h3, keyLtAll_insert h2 t h4]
        rfl

/-- Insertion preserves object well-formedness. -/
theorem owf_insert {k : Str} {v : Json} (hv : jwf v = true) :
    ∀ o : JObj, owf o = true → owf (insertIfAbsent k v o) = true
  | .nil, _ => by
    show (keyLtAll k .nil && jwf v && owf .nil) = true
    simp [keyLtAll, owf, hv]
  | .cons k0 v0 t, ho => by
    have h12 := (Bool.and_eq_true_iff.mp ho).1
    have h3 := (Bool.and_eq_true_iff.mp ho).2
    have h1 := (Bool.and_eq_true_iff.mp h12).1
    have h2 := (Bool.and_eq_true_iff.mp h12).2
    unfold insertIfAbsent
    by_cases hc1 : keyLt k k0 = true
    · rw [if_pos hc1]
      show (keyLtAll k (JObj.cons k0 v0 t) && jwf v && owf (JObj.cons k0 v0 t)) = true
      have hall : keyLtAll k (JObj.cons k0 v0 t) = true := by
        show (keyLt k k0 && keyLtAll k t) = true
        rw [hc1, keyLtAll_of_lt hc1 t h1]
        rfl
      rw [hall, hv, ho]
      rfl
    · rw [if_neg hc1]
      by_cases hc2 : (k == k0) = true
      · rw [if_pos hc2]
        exact ho
      · rw [if_neg hc2]
        have hgt : keyLt k0 k = true :=
          keyLt_conn (Bool.eq_false_iff.mpr hc1) (Bool.eq_false_iff.mpr hc2)
        show (keyLtAll k0 (insertIfAbsent k v t) && jwf v0 && owf (insertIfAbsent k v t))
            = true
        rw [keyLtAll_insert hgt t h1, h2, owf_insert hv t h3]
        rfl

/-- Inserting a key below all existing keys prepends it. -/
theorem insertIfAbsent_below {k : Str} {v : Json} {o : JObj} (h : keyLtAll k o = true) :
    insertIfAbsent k v o = .cons k v o := by
  cases o with
  | nil => rfl
  | cons k0 v0 t =>
    have h1 : keyLt k k0 = true := (Bool.and_eq_true_iff.mp h).1
    unfold insertIfAbsent
    rw [if_pos h1]

mutual
/-- Canonicalized values are well-formed. -/
theorem canonJson_wf : ∀ v, jwf (canonJson v) = true
  | .null => rfl
  | .bool _ => rfl
  | .num _ => rfl
  | .str _ => rfl
  | .arr xs => canonArr_wf xs
  | .obj kvs => canonObj_wf kvs

/-- Canonicalized array bodies are well-formed. -/
theorem canonArr_wf : ∀ a, awf (canonArr a) = true
  | .nil => rfl
  | .cons x xs => by
    show (jwf (canonJson x) && awf (canonArr xs)) = true
    rw [canonJson_wf x, canonArr_wf xs]
    rfl

/-- Canonicalized object bodies are well-formed. -/
theorem canonObj_wf : ∀ o, owf (canonObj o) = true
  | .nil => rfl
  | .cons k v t => by
    show owf (insertIfAbsent k (canonJson v) (canonObj t)) = true
    exact owf_insert (canonJson_wf v) (canonObj t) (canonObj_wf t)
end

mutual
/-- Canonicalization fixes well-formed values. -/
theorem canonJson_fix : ∀ v, jwf v = true → canonJson v = v
  | .null, _ => rfl
  | .bool _, _ => rfl
  | .num _, _ => rfl
  | .str _, _ => rfl
  | .arr xs, h => by
    show Json.arr (canonArr xs) = .arr xs
    rw [canonArr_fix xs h]
  | .obj o, h => by
    show Json.obj (canonObj o) = .obj o
    rw [canonObj_fix o h]

/-- Canonicalization fixes well-formed array bodies. -/
theorem canonArr_fix : ∀ a, awf a = true → canonArr a = a
  | .nil, _ => rfl
  | .cons x xs, h => by
    obtain ⟨h1, h2⟩ := Bool.and_eq_true_iff.mp h
    show JArr.cons (canonJson x) (canonArr xs) = JArr.cons x xs
    rw [canonJson_fix x h1, canonArr_fix xs h2]

/-- Canonicalization fixes well-formed object bodies. -/
theorem canonObj_fix : ∀ o, owf o = true → canonObj o = o
  | .nil, _ => rfl
  | .cons k v t, h => by
    have h12 := (Bool.and_eq_true_iff.mp h).1
    have h3 := (Bool.and_eq_true_iff.mp h).2
    have h1 := (Bool.and_eq_true_iff.mp h12).1
    have h2 := (Bool.and_eq_true_iff.mp h12).2
    show insertIfAbsent k (canonJson v) (canonObj t) = JObj.cons k v t
    rw [canonJson_fix v h2, canonObj_fix t h3, insertIfAbsent_below h1]
end

/-- Every parsed value is well-formed. -/
theorem loads_wf {s : Str} {v : Json} (h : loads s = some v) : jwf v = true := by
  unfold loads at h
  split at h
  · rename_i w r heq
    split_ifs at h
    injection h with h2
    rw [← h2]
    exact canonJson_wf _
  · exact absurd h (by simp)

/-- Printing then parsing a well-formed value returns it exactly. -/
theorem loads_dumps {v : Json} (h : jwf v = true) : loads (dumps v) = some v := by
  unfold loads dumps
  obtain ⟨c, t0, hpr, hws, h1, h2⟩ := printAt_head 0 v
  rw [hpr, skipJsWs_cons_neg hws, ← hpr]
  have hp := (parse_print (2 * (printAt 0 v).length + 2)).1 0 v [] h (by omega)
    (fun c2 t2 hx => absurd hx (by simp))
  rw [List.append_nil] at hp
  rw [hp]
  show (if (skipJsWs [] == ([] : Str)) = true then some (canonJson v) else none) = some v
  rw [if_pos (by rfl), canonJson_fix v h]

/-- Right strip keeps a string with a non-whitespace last character. -/
theorem pyRStrip_append_last {z : Str} {c : Char} (h : pySpace c = false) :
    pyRStrip (z ++ [c]) = z ++ [c] := by
  unfold pyRStrip
  rw [List.reverse_append,
    show (([c] : Str)).reverse ++ z.reverse = c :: z.reverse from by simp,
    List.dropWhile_cons_of_neg (by simp [h])]
  simp

/-- A string with non-whitespace first and last characters strips to
itself. -/
theorem pyStrip_bounded {c : Char} {mid : Str} {d : Char} (hc : pySpace c = false)
    (hd : pySpace d = false) :
    pyStrip (c :: (mid ++ [d])) = c :: (mid ++ [d]) := by
  unfold pyStrip pyLStrip
  rw [List.dropWhile_cons_of_neg (by simp [hc]),
    show (c :: (mid ++ [d]) : Str) = (c :: mid) ++ [d] from by simp]
  exact pyRStrip_append_last hd

/-- A string ends with its appended last character. -/
theorem strEnds_append_last (z : Str) (c : Char) : strEnds [c] (z ++ [c]) = true := by
  unfold strEnds
  rw [List.reverse_append]
  simp [strStarts]

/-- The printed form of an object or array classifies as json: it is
bounded by its own braces or brackets. -/
theorem detect_dumps_container {v : Json}
    (h : (∃ o, v = Json.obj o) ∨ (∃ a, v = Json.arr a)) :
    detectLanguage (dumps v) = ("json").data := by
  rcases h with ⟨o, rfl⟩ | ⟨a, rfl⟩
  · cases o with
    | nil => decide
    | cons k w t =>
      apply detect_json_of_bounded
      have hsh : dumps (Json.obj (JObj.cons k w t))
          = '\x7b' :: (((printObjItems 1 (JObj.cons k w t) ++ nlIndent 0) ++ [('\x7d')])) := rfl
      have hst : pyStrip (dumps (Json.obj (JObj.cons k w t)))
          = dumps (Json.obj (JObj.cons k w t)) := by
        rw [hsh]
        exact pyStrip_bounded (by decide) (by decide)
      rw [hst, hsh]
      have he : strEnds (("\x7d").data)
          ('\x7b' :: (((printObjItems 1 (JObj.cons k w t) ++ nlIndent 0) ++ [('\x7d')])))
          = true := by
        rw [show ('\x7b' :: (((printObjItems 1 (JObj.cons k w t) ++ nlIndent 0)
            ++ [('\x7d')])) : Str)
            = ('\x7b' :: (printObjItems 1 (JObj.cons k w t) ++ nlIndent 0)) ++ [('\x7d')]
          from by simp]
        exact strEnds_append_last _ _
      rw [he]
      simp [strStarts]
  · cases a with
    | nil => decide
    | cons x xs =>
      apply detect_json_of_bounded
      have hsh : dumps (Json.arr (JArr.cons x xs))
          = '[' :: (((printArrItems 1 (JArr.cons x xs) ++ nlIndent 0) ++ [(']')])) := rfl
      have hst : pyStrip (dumps (Json.arr (JArr.cons x xs)))
          = dumps (Json.arr (JArr.cons x xs)) := by
        rw [hsh]
        exact pyStrip_bounded (by decide) (by decide)
      rw [hst, hsh]
      have he : strEnds (("]").data)
          ('[' :: (((printArrItems 1 (JArr.cons x xs) ++ nlIndent 0) ++ [(']')])))
          = true := by
        rw [show ('[' :: (((printArrItems 1 (JArr.cons x xs) ++ nlIndent 0)
            ++ [(']')])) : Str)
            = ('[' :: (printArrItems 1 (JArr.cons x xs) ++ nlIndent 0)) ++ [(']')]
          from by simp]
        exact strEnds_append_last _ _
      rw [he]
      simp [strStarts]

/-- The json branch of the standardized dispatch prints the parsed value. -/
theorem stdDispatch_json_loads {S : Str} {v : Json} (hl : loads S = some v) :
    stdDispatch S (("json").data) = (dumps v, ("json").data) := by
  unfold stdDispatch
  rw [if_pos (show ((("json").data : Str) == ("json").data) = true from rfl), hl]

/-- With no hint and json detected, the block formatter prints the parsed
value. -/
theorem formatCodeBlock_json (S : Str) (v : Json) (hl : loads S = some v)
    (hdet : detectLanguage S = ("json").data) :
    formatCodeBlock false true S none = (dumps v, ("json").data) := by
  rw [formatCodeBlock_false]
  show stdDispatch S (hintOr none (detectLanguage S)) = _
  rw [show hintOr none (detectLanguage S) = detectLanguage S from rfl, hdet]
  exact stdDispatch_json_loads hl

/-- Claim C3 (counterexample): a syntactically valid JSON string whose
content looks like shell is not formatted as JSON — the fragment
consisting of the quoted string "$x echo" parses as a JSON string, yet the
block formatter classifies it as bash and rewrites the dollar variable,
so the output parses to a different JSON value than the input. -/
theorem format_block_json_roundtrip_counterexample :
    loads (("\"$x echo\"").data) = some (Json.str (("$x echo").data))
    ∧ formatCodeBlock false true (("\"$x echo\"").data) none
        = ((("\"$\x7bx\x7d echo\"").data), ("bash").data)
    ∧ loads ((("\"$\x7bx\x7d echo\"").data))
        = some (Json.str (("$\x7bx\x7d echo").data))
    ∧ Json.str (("$\x7bx\x7d echo").data) ≠ Json.str (("$x echo").data) :=
  ⟨by decide, by decide, by decide, by decide⟩

/-- Claim C3 (amended): for every string S that parses as JSON and that
the classifier resolves to json, `format_block(S)` with no hint returns
exactly the canonical dump of the parsed value with resolved language
"json"; that output parses back to the same value, the value is
well-formed (all object keys strictly sorted, the sort_keys guarantee),
and when the value is an object or array the formatter is idempotent on
its own output (a scalar dump may re-classify as another language, as the
counterexample shows). -/
theorem format_block_json_roundtrip (S : Str) (v : Json) (hl : loads S = some v)
    (hdet : detectLanguage S = ("json").data) :
    formatCodeBlock false true S none = (dumps v, ("json").data)
    ∧ loads (dumps v) = some v
    ∧ jwf v = true
    ∧ (((∃ o, v = Json.obj o) ∨ (∃ a, v = Json.arr a)) →
        formatCodeBlock false true (dumps v) none = (dumps v, ("json").data)) := by
  have hwf := loads_wf hl
  have hrt := loads_dumps hwf
  refine ⟨formatCodeBlock_json S v hl hdet, hrt, hwf, ?_⟩
  intro hcont
  exact formatCodeBlock_json (dumps v) v hrt (detect_dumps_container hcont)

/-- Witness for the amended C3 at the specification's own example: the
object text with keys b then a is re-emitted with sorted keys and
two-space indentation, and a second application leaves it unchanged. -/
theorem format_block_json_roundtrip_witness :
    loads (("\x7b\"b\":1,\"a\":2\x7d").data)
        = some (Json.obj (JObj.cons (("a").data) (Json.num 2)
            (JObj.cons (("b").data) (Json.num 1) JObj.nil)))
    ∧ detectLanguage (("\x7b\"b\":1,\"a\":2\x7d").data) = ("json").data
    ∧ formatCodeBlock false true (("\x7b\"b\":1,\"a\":2\x7d").data) none
        = ((("\x7b\n  \"a\": 2,\n  \"b\": 1\n\x7d").data), ("json").data)
    ∧ formatCodeBlock false true (("\x7b\n  \"a\": 2,\n  \"b\": 1\n\x7d").data) none
        = ((("\x7b\n  \"a\": 2,\n  \"b\": 1\n\x7d").data), ("json").data) :=
  ⟨by decide, by decide,
   (format_block_json_roundtrip (("\x7b\"b\":1,\"a\":2\x7d").data)
     (Json.obj (JObj.cons (("a").data) (Json.num 2)
       (JObj.cons (("b").data) (Json.num 1) JObj.nil)))
     (by decide) (by decide)).1.trans (by decide),
   by
    have h := (format_block_json_roundtrip (("\x7b\"b\":1,\"a\":2\x7d").data)
      (Json.obj (JObj.cons (("a").data) (Json.num 2)
        (JObj.cons (("b").data) (Json.num 1) JObj.nil))) (by decide) (by decide)).2.2.2
      (Or.inl ⟨_, rfl⟩)
    exact (by decide : (("\x7b\n  \"a\": 2,\n  \"b\": 1\n\x7d").data)
      = dumps (Json.obj (JObj.cons (("a").data) (Json.num 2)
        (JObj.cons (("b").data) (Json.num 1) JObj.nil)))) ▸ h⟩
